import Mathlib

/-
Verification development for `src/cpp/src/geos_js.cpp`: a binary codec
moving geometry data between a flat numeric buffer and native geometry
trees ("geosify" = buffer → tree, "jsonify" = tree → buffer), plus an
STRtree nearest-neighbor query layer.

Modelling conventions:
* 32-bit buffer words and 64-bit float payloads are modelled as `Nat`
  (the codec never performs arithmetic on coordinate values, it only
  moves them, so ordinates are opaque bit patterns).
* The GEOS kernel (out of scope of the spec) is modelled at its
  interface: a geometry is an inductive tree `Geom`; a coordinate
  sequence is its point count plus its raw ordinate storage `CSeq`.
* Pointers (`cs->data()`, geometry handles) are modelled structurally:
  an emitted data pointer carries the pointed-to ordinate list
  (`BW.p`), an allocated coordinate-sequence handle is its index in
  the allocation list produced by the decode pre-pass.
* The cursor-driven C functions walking a flat array forward become
  stream transducers: consuming the input list head corresponds to
  reading at the cursor and advancing it; cursor deltas are the
  lengths of the consumed/emitted lists.
* Recursive buffer walks (whose termination in C depends on buffer
  contents) take an explicit fuel argument; fuel is always instantiated
  large enough (node count of the geometry) for the runs we study.
* In the nearest-neighbor layer, kernel distances are modelled as
  exact rationals (the callback logic only compares and stores them);
  the running minimum lives in `WithTop ℚ` with `⊤` playing the role
  of `DoubleInfinity`.
-/

namespace GeosJs

/-- Coordinate sequence as the codec observes it: `size` is
`cs->getSize()` (the point count) and `data` is the raw ordinate
storage behind `cs->data()`. -/
structure CSeq where
  size : Nat
  data : List Nat
  deriving DecidableEq

/-- Native geometry tree, the interface-level model of the GEOS
geometry graph as accessed by `geos_js.cpp`. `Point` ordinates and the
points of a `MultiPoint` are stored inline (the code block-copies
them); curve-backed kinds carry coordinate sequences; `Polygon` and
the polygons of a `MultiPolygon` carry an exterior shell plus interior
holes; collection kinds carry child geometries. A GEOS empty polygon
is represented with a `size = 0` shell, matching
`getExteriorRing()` returning an empty ring. -/
inductive Geom : Type where
  | point (hasZ hasM : Bool) (coords : List Nat)
  | lineString (hasZ hasM : Bool) (cs : CSeq)
  | linearRing (hasZ hasM : Bool) (cs : CSeq)
  | circularString (hasZ hasM : Bool) (cs : CSeq)
  | polygon (hasZ hasM : Bool) (shell : CSeq) (holes : List CSeq)
  | multiPoint (hasZ hasM : Bool) (pts : List (List Nat))
  | multiLineString (hasZ hasM : Bool) (lines : List CSeq)
  | multiPolygon (hasZ hasM : Bool) (polys : List (CSeq × List CSeq))
  | geometryCollection (hasZ hasM : Bool) (geoms : List Geom)
  | compoundCurve (hasZ hasM : Bool) (segs : List Geom)
  | curvePolygon (hasZ hasM : Bool) (shell : Geom) (holes : List Geom)
  | multiCurve (hasZ hasM : Bool) (geoms : List Geom)
  | multiSurface (hasZ hasM : Bool) (geoms : List Geom)

/-- GEOS `GeometryTypeId` numeric tags. -/
def Geom.typeId : Geom → Nat
  | .point .. => 0
  | .lineString .. => 1
  | .linearRing .. => 2
  | .polygon .. => 3
  | .multiPoint .. => 4
  | .multiLineString .. => 5
  | .multiPolygon .. => 6
  | .geometryCollection .. => 7
  | .circularString .. => 8
  | .compoundCurve .. => 9
  | .curvePolygon .. => 10
  | .multiCurve .. => 11
  | .multiSurface .. => 12

/-- `geom->hasZ()`. -/
def Geom.hasZb : Geom → Bool
  | .point z _ _ | .lineString z _ _ | .linearRing z _ _ | .circularString z _ _
  | .polygon z _ _ _ | .multiPoint z _ _ | .multiLineString z _ _
  | .multiPolygon z _ _ | .geometryCollection z _ _ | .compoundCurve z _ _
  | .curvePolygon z _ _ _ | .multiCurve z _ _ | .multiSurface z _ _ => z

/-- `geom->hasM()`. -/
def Geom.hasMb : Geom → Bool
  | .point _ m _ | .lineString _ m _ | .linearRing _ m _ | .circularString _ m _
  | .polygon _ m _ _ | .multiPoint _ m _ | .multiLineString _ m _
  | .multiPolygon _ m _ | .geometryCollection _ m _ | .compoundCurve _ m _
  | .curvePolygon _ m _ _ | .multiCurve _ m _ | .multiSurface _ m _ => m

mutual

/-- `geom->isEmpty()`: a point with no coordinates, a curve over an
empty sequence, a polygon with an empty shell, and a collection all of
whose components are empty (vacuously, with no components). -/
def Geom.isEmptyB : Geom → Bool
  | .point _ _ coords => coords.isEmpty
  | .lineString _ _ cs | .linearRing _ _ cs | .circularString _ _ cs => cs.size == 0
  | .polygon _ _ shell _ => shell.size == 0
  | .multiPoint _ _ pts => pts.all List.isEmpty
  | .multiLineString _ _ lines => lines.all (fun cs => cs.size == 0)
  | .multiPolygon _ _ polys => polys.all (fun p => p.1.size == 0)
  | .geometryCollection _ _ gs | .multiCurve _ _ gs | .multiSurface _ _ gs =>
      Geom.allEmptyB gs
  | .compoundCurve _ _ segs => Geom.allEmptyB segs
  | .curvePolygon _ _ shell _ => Geom.isEmptyB shell

/-- All members of a list of geometries are empty. -/
def Geom.allEmptyB : List Geom → Bool
  | [] => true
  | g :: gs => g.isEmptyB && Geom.allEmptyB gs

end

/-- Header word: `type | isEmpty << 4 | hasZ << 5 | hasM << 6`
(`jsonify_inspectGeom`, line 382). Since `typeId < 16` the bitwise-or
is a plain sum. -/
def Geom.header (g : Geom) : Nat :=
  g.typeId + (if g.isEmptyB then 16 else 0)
    + (if g.hasZb then 32 else 0) + (if g.hasMb then 64 else 0)

/-- `header & 15`: the type tag of a header word. -/
def headerType (h : Nat) : Nat := h % 16

/-- `header >> 4 & 1`: isEmpty flag. -/
def headerE (h : Nat) : Bool := h / 16 % 2 == 1

/-- `header >> 5 & 1`: hasZ flag. -/
def headerZ (h : Nat) : Bool := h / 32 % 2 == 1

/-- `header >> 6 & 1`: hasM flag. -/
def headerM (h : Nat) : Bool := h / 64 % 2 == 1

/-- Ordinates moved per point: `hasM ? 4 : hasZ ? 3 : 2`
(`jsonify_measureGeom` line 273, `jsonify_inspectPoint` line 356).
Note the codec moves 4 words per point whenever `hasM` is set, on both
the encode and the decode side (`geosify_point` advances `3 + hasM`
with `hasZ || hasM`, which coincides with this value). -/
def ptN (hasZ hasM : Bool) : Nat := if hasM then 4 else if hasZ then 3 else 2

/-- Ordinates per point of a stored coordinate sequence
(XY = 2, XYZ = 3, XYM = 3, XYZM = 4). -/
def dims (hasZ hasM : Bool) : Nat :=
  2 + (if hasZ then 1 else 0) + (if hasM then 1 else 0)

/-- `memcpy` of exactly `n` words out of a buffer holding `l`: the
in-range part is copied, reads past the source (which only happen on
malformed geometries excluded by the well-formedness predicate) are
modelled as zeros so that exactly `n` words are always transferred. -/
def padTake (n : Nat) (l : List Nat) : List Nat :=
  l.take n ++ List.replicate (n - l.length) 0

/-- Concatenation of the images of a list (loop emitting words per
element). -/
def catMap (f : α → List β) : List α → List β
  | [] => []
  | x :: xs => f x ++ catMap f xs

mutual

/-- Node count of a geometry tree, used as fuel for the buffer-driven
recursions. -/
def gsz : Geom → Nat
  | .point _ _ _ | .lineString _ _ _ | .linearRing _ _ _ | .circularString _ _ _
  | .polygon _ _ _ _ | .multiPoint _ _ _ | .multiLineString _ _ _
  | .multiPolygon _ _ _ => 1
  | .geometryCollection _ _ gs | .multiCurve _ _ gs | .multiSurface _ _ gs =>
      1 + gszL gs
  | .compoundCurve _ _ segs => 1 + gszL segs
  | .curvePolygon _ _ shell holes => 1 + gsz shell + gszL holes

def gszL : List Geom → Nat
  | [] => 0
  | g :: gs => gsz g + gszL gs

end

/- ********************************************
 * Jsonify: GEOS to GeoJSON (encoder)
 * ******************************************** -/

/-- Integer words contributed per polygon by the `GEOS_MULTIPOLYGON`
loop of `jsonify_measureGeom` (line 314): `3 + interiorRings * 2`. -/
def jsonify_measurePolys : List (CSeq × List CSeq) → Nat
  | [] => 0
  | p :: ps => (3 + p.2.length * 2) + jsonify_measurePolys ps

mutual

/-- `jsonify_measureGeom` (lines 269-352): the measuring pass; returns
the contribution of the geometry to the integer-word count `bCount`
and the float-ordinate count `fCount`. -/
def jsonify_measureGeom : Geom → Nat × Nat
  | .point z m coords => (1, if coords.isEmpty then 0 else ptN z m)
  | .lineString _ _ _ | .linearRing _ _ _ | .circularString _ _ _ => (3, 0)
  | .polygon _ _ _ holes => (4 + holes.length * 2, 0)
  | .multiPoint z m pts => (2, pts.length * ptN z m)
  | .multiLineString _ _ lines => (2 + lines.length * 2, 0)
  | .multiPolygon _ _ polys => (2 + jsonify_measurePolys polys, 0)
  | .geometryCollection _ _ gs | .multiCurve _ _ gs | .multiSurface _ _ gs =>
      let r := jsonify_measureList gs
      (2 + r.1, r.2)
  | .compoundCurve _ _ segs =>
      let r := jsonify_measureList segs
      (2 + r.1, r.2)
  | .curvePolygon _ _ shell holes =>
      let r1 := jsonify_measureGeom shell
      let r2 := jsonify_measureList holes
      (2 + r1.1 + r2.1, r1.2 + r2.2)

/-- Accumulation of `jsonify_measureGeom` over a child list (the
collection loops of the measuring pass, and the top-level loop of
`jsonify_geoms`). -/
def jsonify_measureList : List Geom → Nat × Nat
  | [] => (0, 0)
  | g :: gs =>
      let r1 := jsonify_measureGeom g
      let r2 := jsonify_measureList gs
      (r1.1 + r2.1, r1.2 + r2.2)

end

/-- A word emitted into the integer region `B` by the writing pass:
either a plain value or a `cs->data()` pointer, the latter modelled by
the ordinate list it points at. -/
inductive BW where
  | w (val : Nat)
  | p (data : List Nat)
  deriving DecidableEq

/-- `jsonify_inspectPoint` (lines 354-359): copy `n * 8` bytes of the
point's coordinate storage into the float region. -/
def jsonify_inspectPoint (hasZ hasM : Bool) (coords : List Nat) : List Nat :=
  padTake (ptN hasZ hasM) coords

/-- `jsonify_inspectCurve` (lines 361-365): emit `cs->getSize()` and
`cs->data() / 8`. -/
def jsonify_inspectCurve (cs : CSeq) : List BW := [.w cs.size, .p cs.data]

/-- `jsonify_inspectPolygon` (lines 367-374): emit the total ring
count then every ring. -/
def jsonify_inspectPolygon (shell : CSeq) (holes : List CSeq) : List BW :=
  .w (holes.length + 1) :: (jsonify_inspectCurve shell ++ catMap jsonify_inspectCurve holes)

mutual

/-- `jsonify_inspectGeom` (lines 376-472): the writing pass; returns
the words appended to the integer region `B` and to the float region
`F` (the final cursors `b` and `f` are the lengths of these lists).
Every geometry first emits its header word; an empty geometry emits
nothing else. -/
def jsonify_inspectGeom : Geom → List BW × List Nat
  | .point z m coords =>
      ([.w (Geom.point z m coords).header],
       if coords.isEmpty then [] else jsonify_inspectPoint z m coords)
  | .lineString z m cs =>
      if cs.size == 0 then ([.w (Geom.lineString z m cs).header], [])
      else (.w (Geom.lineString z m cs).header :: jsonify_inspectCurve cs, [])
  | .linearRing z m cs =>
      if cs.size == 0 then ([.w (Geom.linearRing z m cs).header], [])
      else (.w (Geom.linearRing z m cs).header :: jsonify_inspectCurve cs, [])
  | .circularString z m cs =>
      if cs.size == 0 then ([.w (Geom.circularString z m cs).header], [])
      else (.w (Geom.circularString z m cs).header :: jsonify_inspectCurve cs, [])
  | .polygon z m shell holes =>
      if shell.size == 0 then ([.w (Geom.polygon z m shell holes).header], [])
      else (.w (Geom.polygon z m shell holes).header :: jsonify_inspectPolygon shell holes, [])
  | .multiPoint z m pts =>
      if pts.all List.isEmpty then ([.w (Geom.multiPoint z m pts).header], [])
      else ([.w (Geom.multiPoint z m pts).header, .w pts.length],
            catMap (jsonify_inspectPoint z m) pts)
  | .multiLineString z m lines =>
      if lines.all (fun cs => cs.size == 0) then
        ([.w (Geom.multiLineString z m lines).header], [])
      else (.w (Geom.multiLineString z m lines).header :: .w lines.length ::
              catMap jsonify_inspectCurve lines, [])
  | .multiPolygon z m polys =>
      if polys.all (fun p => p.1.size == 0) then
        ([.w (Geom.multiPolygon z m polys).header], [])
      else (.w (Geom.multiPolygon z m polys).header :: .w polys.length ::
              catMap (fun p => jsonify_inspectPolygon p.1 p.2) polys, [])
  | .geometryCollection z m gs =>
      if Geom.allEmptyB gs then ([.w (Geom.geometryCollection z m gs).header], [])
      else
        let r := jsonify_inspectList gs
        (.w (Geom.geometryCollection z m gs).header :: .w gs.length :: r.1, r.2)
  | .multiCurve z m gs =>
      if Geom.allEmptyB gs then ([.w (Geom.multiCurve z m gs).header], [])
      else
        let r := jsonify_inspectList gs
        (.w (Geom.multiCurve z m gs).header :: .w gs.length :: r.1, r.2)
  | .multiSurface z m gs =>
      if Geom.allEmptyB gs then ([.w (Geom.multiSurface z m gs).header], [])
      else
        let r := jsonify_inspectList gs
        (.w (Geom.multiSurface z m gs).header :: .w gs.length :: r.1, r.2)
  | .compoundCurve z m segs =>
      if Geom.allEmptyB segs then ([.w (Geom.compoundCurve z m segs).header], [])
      else
        let r := jsonify_inspectList segs
        (.w (Geom.compoundCurve z m segs).header :: .w segs.length :: r.1, r.2)
  | .curvePolygon z m shell holes =>
      if Geom.isEmptyB shell then ([.w (Geom.curvePolygon z m shell holes).header], [])
      else
        let r1 := jsonify_inspectGeom shell
        let r2 := jsonify_inspectList holes
        (.w (Geom.curvePolygon z m shell holes).header :: .w (holes.length + 1) ::
           (r1.1 ++ r2.1), r1.2 ++ r2.2)

/-- The writing pass over a child list (collection loops, and the
top-level loop of `jsonify_geoms`). -/
def jsonify_inspectList : List Geom → List BW × List Nat
  | [] => ([], [])
  | g :: gs =>
      let r1 := jsonify_inspectGeom g
      let r2 := jsonify_inspectList gs
      (r1.1 ++ r2.1, r1.2 ++ r2.2)

end

/-- Words the writing pass appends to the integer region for `g`. -/
def jsB (g : Geom) : List BW := (jsonify_inspectGeom g).1

/-- Ordinates the writing pass appends to the float region for `g`. -/
def jsF (g : Geom) : List Nat := (jsonify_inspectGeom g).2

/-- Result of `jsonify_geoms` as observable by the host: the final
contents of the two reserved header slots `buff[0]` and `buff[1]`,
which branch of the buffer selection was taken, and the word streams
written to the chosen integer and float regions. -/
structure JsonifyOut where
  slot0 : Nat
  slot1 : Nat
  usedTmp : Bool
  B : List BW
  F : List Nat

/-- `jsonify_geoms` (lines 474-505). `slot0` is the incoming value of
`buff[0]` (only overwritten in the allocation branch), `base` is the
byte address of the input buffer, `avail` is `buff[2 + geomsLength]`
(spare capacity in 32-bit words), `tmpAddr` is the byte address
`malloc` returns in the allocation branch. Addresses divided by 8 in
the source stay as explicit `/ 8` here. -/
def jsonify_geoms (geoms : List Geom) (slot0 base avail tmpAddr : Nat) : JsonifyOut :=
  let bCount := (jsonify_measureList geoms).1
  let fCount := (jsonify_measureList geoms).2
  let BF := jsonify_inspectList geoms
  if bCount + fCount * 2 > avail then
    -- allocate new tmp output buffer; `bCount += bCount % 2` keeps F 8-byte aligned
    let bC := bCount + bCount % 2
    { slot0 := tmpAddr
      slot1 := (tmpAddr + 8 * (bC / 2)) / 8
      usedTmp := true
      B := BF.1
      F := BF.2 }
  else
    -- use input buffer: B = buff + o, F = (f64 *) buff + (o + bCount + 1) / 2
    let o := 2 + geoms.length
    { slot0 := slot0
      slot1 := (base + 8 * ((o + bCount + 1) / 2)) / 8
      usedTmp := false
      B := BF.1
      F := BF.2 }

/- ********************************************
 * Geosify: GeoJSON to GEOS (decoder)
 * ******************************************** -/

/-- A coordinate sequence allocated by the decode pre-pass
(`new CoordinateSequence(ptsLength, hasZ, hasM, false)`), before the
host fills its storage. -/
structure CSAlloc where
  size : Nat
  hasZ : Bool
  hasM : Bool
  deriving DecidableEq

/-- A coordinate sequence with its storage filled by the host. -/
structure CSA where
  size : Nat
  hasZ : Bool
  hasM : Bool
  data : List Nat
  deriving DecidableEq

/-- `geosify_geoms_r` line 255: the float region starts at
`(f64 *) buff + (dLength + sLength + 3) / 2`, i.e. this many 8-byte
words past the buffer base. -/
def geosify_F_offset (dLength sLength : Nat) : Nat := (dLength + sLength + 3) / 2

/-- Region split performed by `geosify_geoms_r` (lines 252-255) on the
flat 32-bit word buffer: the integer region `D` starts after the two
header words, the float region starts `2 * geosify_F_offset` 32-bit
words past the base. -/
def geosify_regions (buff : List Nat) : List Nat × List Nat :=
  let dLength := buff.headD 0
  let sLength := (buff.drop 1).headD 0
  ((buff.drop 2).take dLength, buff.drop (2 * geosify_F_offset dLength sLength))

/-- `geosify_coords` (lines 28-33) as a stream step: read the declared
point count at the cursor, overwrite it in place with the handle of a
freshly allocated sequence (handle = running allocation index `k`),
record the allocation. The backing-storage address pushed to `S`
becomes the position of the allocation in the returned list (strict
FIFO). Returns (emitted words, allocations, remaining input, next
handle). -/
def geosify_coords (hasZ hasM : Bool) (k : Nat) :
    List Nat → Option (List Nat × List CSAlloc × List Nat × Nat)
  | [] => none
  | w :: rest => some ([k], [⟨w, hasZ, hasM⟩], rest, k + 1)

/-- `n` consecutive `geosify_coords` steps (the ring/line loops of
`geosify_geomCoords`). -/
def geosify_coordsN (hasZ hasM : Bool) :
    Nat → Nat → List Nat → Option (List Nat × List CSAlloc × List Nat × Nat)
  | k, 0, rest => some ([], [], rest, k)
  | k, n + 1, rest => do
      let (ws, als, rest1, k1) ← geosify_coords hasZ hasM k rest
      let (ws2, als2, rest2, k2) ← geosify_coordsN hasZ hasM k1 n rest1
      return (ws ++ ws2, als ++ als2, rest2, k2)

/-- The `GEOS_MULTIPOLYGON` loop of `geosify_geomCoords` (lines
62-71): per polygon read the ring count and then that many
`geosify_coords` steps. -/
def geosify_ppolysN (hasZ hasM : Bool) :
    Nat → Nat → List Nat → Option (List Nat × List CSAlloc × List Nat × Nat)
  | k, 0, rest => some ([], [], rest, k)
  | _, _ + 1, [] => none
  | k, j + 1, w :: rest => do
      let (ws, als, rest1, k1) ← geosify_coordsN hasZ hasM k w rest
      let (ws2, als2, rest2, k2) ← geosify_ppolysN hasZ hasM k1 j rest1
      return (w :: (ws ++ ws2), als ++ als2, rest2, k2)

mutual

/-- `geosify_geomCoords` (lines 35-90): the decode pre-pass. Walks one
geometry's integer words, allocating a coordinate sequence (and
overwriting the point-count word with its handle) for every
curve-backed leaf; `Point` and `LinearRing` headers (and tags 13-15,
which fall out of the `switch`) consume only the header. -/
def geosify_geomCoords : Nat → Nat → List Nat → Option (List Nat × List CSAlloc × List Nat × Nat)
  | 0, _, _ => none
  | _ + 1, _, [] => none
  | fuel + 1, k, header :: rest =>
      let type := headerType header
      let z := headerZ header
      let m := headerM header
      if type == 1 || type == 8 then do
        -- LINESTRING, CIRCULARSTRING
        let (ws, als, rest1, k1) ← geosify_coords z m k rest
        return (header :: ws, als, rest1, k1)
      else if type == 3 || type == 5 then
        -- POLYGON, MULTILINESTRING
        match rest with
        | [] => none
        | w :: rest1 => do
            let (ws, als, rest2, k2) ← geosify_coordsN z m k w rest1
            return (header :: w :: ws, als, rest2, k2)
      else if type == 4 then
        -- MULTIPOINT: skip points length
        match rest with
        | [] => none
        | w :: rest1 => some (header :: [w], [], rest1, k)
      else if type == 6 then
        -- MULTIPOLYGON
        match rest with
        | [] => none
        | w :: rest1 => do
            let (ws, als, rest2, k2) ← geosify_ppolysN z m k w rest1
            return (header :: w :: ws, als, rest2, k2)
      else if type == 7 || type == 9 || type == 10 || type == 11 || type == 12 then
        -- GEOMETRYCOLLECTION, COMPOUNDCURVE, CURVEPOLYGON, MULTICURVE, MULTISURFACE
        match rest with
        | [] => none
        | w :: rest1 => do
            let (ws, als, rest2, k2) ← geosify_geomCoordsN fuel k w rest1
            return (header :: w :: ws, als, rest2, k2)
      else
        -- POINT, LINEARRING (and tags without a case): header only
        some ([header], [], rest, k)

/-- The collection loop of the pre-pass: `n` recursive child walks. -/
def geosify_geomCoordsN : Nat → Nat → Nat → List Nat → Option (List Nat × List CSAlloc × List Nat × Nat)
  | _, k, 0, rest => some ([], [], rest, k)
  | fuel, k, n + 1, rest => do
      let (ws, als, rest1, k1) ← geosify_geomCoords fuel k rest
      let (ws2, als2, rest2, k2) ← geosify_geomCoordsN fuel k1 n rest1
      return (ws ++ ws2, als ++ als2, rest2, k2)

end

/-- `geosify_geomsCoords` (lines 92-102): run the pre-pass over the
whole integer region (`while (s.d < dLength)`), accumulating the
rewritten words and the allocation list. -/
def geosify_geomsCoords : Nat → List Nat → Nat → Option (List Nat × List CSAlloc)
  | 0, _, _ => none
  | fuel + 1, D, k =>
      if D.isEmpty then some ([], [])
      else
        match geosify_geomCoords (fuel + 1) k D with
        | none => none
        | some (ws, als, rest, k1) =>
            match geosify_geomsCoords fuel rest k1 with
            | none => none
            | some (ws2, als2) => some (ws ++ ws2, als ++ als2)

/-- Read `n` words from the float stream (a `memcpy` out of `F` at the
cursor); fails (undefined behavior in C) if the region is too short. -/
def takeF (n : Nat) (F : List Nat) : Option (List Nat × List Nat) :=
  if n ≤ F.length then some (F.take n, F.drop n) else none

/-- `geosify_point` (lines 112-120): with Z or M, copy `24 + hasM * 8`
bytes and advance the float cursor by `3 + hasM`; otherwise construct
from two floats. The XY branch yields a plain 2D point. -/
def geosify_point (hasZ hasM : Bool) (F : List Nat) : Option (Geom × List Nat) :=
  if hasZ || hasM then
    match takeF (3 + (if hasM then 1 else 0)) F with
    | none => none
    | some (c, F1) => some (.point hasZ hasM c, F1)
  else
    match takeF 2 F with
    | none => none
    | some (c, F1) => some (.point false false c, F1)

/-- The `GEOS_MULTIPOINT` loop of `geosify_geom`: `n` points built
from the float stream; the resulting point coordinate lists. -/
def geosify_pointsN (hasZ hasM : Bool) :
    Nat → List Nat → Option (List (List Nat) × List Nat)
  | 0, F => some ([], F)
  | n + 1, F =>
      match geosify_point hasZ hasM F with
      | some (.point _ _ c, F1) =>
          match geosify_pointsN hasZ hasM n F1 with
          | none => none
          | some (cs, F2) => some (c :: cs, F2)
      | _ => none

/-- Consume `n` handle words, resolving each against the filled
allocation list (the ring loop of `geosify_polygon` and the line loop
of the `GEOS_MULTILINESTRING` case). -/
def geosify_ringsN (H : List CSA) : Nat → List Nat → Option (List CSA × List Nat)
  | 0, D => some ([], D)
  | _ + 1, [] => none
  | n + 1, h :: D => do
      let cs ← H[h]?
      let (css, D1) ← geosify_ringsN H n D
      return (cs :: css, D1)

/-- `geosify_polygon` (lines 126-136): read the ring count; zero gives
the empty polygon (an empty shell, no holes, 2D); otherwise resolve
the ring handles, the first being the shell. Also returns the shell
sequence's flags, from which GEOS derives the polygon's
dimensionality. -/
def geosify_polygon (H : List CSA) (D : List Nat) :
    Option ((CSeq × List CSeq) × (Bool × Bool) × List Nat) :=
  match D with
  | [] => none
  | w :: D1 =>
      if w == 0 then some ((⟨0, []⟩, []), (false, false), D1)
      else
        match geosify_ringsN H w D1 with
        | none => none
        | some ([], _) => none
        | some (r0 :: rs, D2) =>
            some ((⟨r0.size, r0.data⟩, rs.map fun r => ⟨r.size, r.data⟩),
                  (r0.hasZ, r0.hasM), D2)

/-- The `GEOS_MULTIPOLYGON` loop of `geosify_geom`. -/
def geosify_polygonsN (H : List CSA) :
    Nat → List Nat → Option (List (CSeq × List CSeq) × List Nat)
  | 0, D => some ([], D)
  | n + 1, D => do
      let (p, _, D1) ← geosify_polygon H D
      let (ps, D2) ← geosify_polygonsN H n D1
      return (p :: ps, D2)

/-- `GEOSGeom_createEmptyCollection_r` for the tags reaching the shared
collection case of `geosify_geom`, and the non-empty counterpart. -/
def mkColl (type : Nat) (z m : Bool) (gs : List Geom) : Geom :=
  if type == 7 then .geometryCollection z m gs
  else if type == 11 then .multiCurve z m gs
  else .multiSurface z m gs

/-- The shell GEOS reports for an empty curve polygon, modelled (like
an empty `Polygon`) as an empty linear ring. -/
def emptyCPShell : Geom := .linearRing false false ⟨0, []⟩

mutual

/-- `geosify_geom` (lines 142-249): the decode assembly pass over the
pre-pass-rewritten integer words, the float region and the filled
allocation list. The result is the returned `GEOSGeometry *`: `none`
models the `nullptr` returned for a `LinearRing` header. Tags 13-15
fall off the end of the `switch` of a value-returning function, which
is undefined behavior, modelled as failure. The empty constructors
(`GEOSGeom_createEmpty*`) produce 2D geometries. Dimension flags of
the built containers come from the header word, whose flags the
pre-pass already stamped on every child sequence allocation. -/
def geosify_geom : Nat → List Nat → List Nat → List CSA → Option (Option Geom × List Nat × List Nat)
  | 0, _, _, _ => none
  | _ + 1, [], _, _ => none
  | fuel + 1, header :: D, F, H =>
      let type := headerType header
      let e := headerE header
      let z := headerZ header
      let m := headerM header
      if type == 0 then
        -- POINT
        if e then some (some (.point false false []), D, F)
        else
          match geosify_point z m F with
          | none => none
          | some (g, F1) => some (some g, D, F1)
      else if type == 1 then
        -- LINESTRING: wrap one previously allocated sequence handle
        match D with
        | [] => none
        | h :: D1 =>
            match H[h]? with
            | none => none
            | some cs => some (some (.lineString cs.hasZ cs.hasM ⟨cs.size, cs.data⟩), D1, F)
      else if type == 8 then
        -- CIRCULARSTRING
        match D with
        | [] => none
        | h :: D1 =>
            match H[h]? with
            | none => none
            | some cs => some (some (.circularString cs.hasZ cs.hasM ⟨cs.size, cs.data⟩), D1, F)
      else if type == 3 then
        -- POLYGON
        match geosify_polygon H D with
        | none => none
        | some (p, zm, D1) => some (some (.polygon zm.1 zm.2 p.1 p.2), D1, F)
      else if type == 4 then
        -- MULTIPOINT
        match D with
        | [] => none
        | w :: D1 =>
            if w == 0 then some (some (.multiPoint false false []), D1, F)
            else
              match geosify_pointsN z m w F with
              | none => none
              | some (pts, F1) => some (some (.multiPoint z m pts), D1, F1)
      else if type == 5 then
        -- MULTILINESTRING
        match D with
        | [] => none
        | w :: D1 =>
            if w == 0 then some (some (.multiLineString false false []), D1, F)
            else
              match geosify_ringsN H w D1 with
              | none => none
              | some (css, D2) =>
                  some (some (.multiLineString z m (css.map fun c => ⟨c.size, c.data⟩)), D2, F)
      else if type == 6 then
        -- MULTIPOLYGON
        match D with
        | [] => none
        | w :: D1 =>
            if w == 0 then some (some (.multiPolygon false false []), D1, F)
            else
              match geosify_polygonsN H w D1 with
              | none => none
              | some (ps, D2) => some (some (.multiPolygon z m ps), D2, F)
      else if type == 9 then
        -- COMPOUNDCURVE
        match D with
        | [] => none
        | w :: D1 =>
            if w == 0 then some (some (.compoundCurve false false []), D1, F)
            else
              match geosify_geomN fuel w D1 F H with
              | none => none
              | some (gs, D2, F2) => some (some (.compoundCurve z m gs), D2, F2)
      else if type == 10 then
        -- CURVEPOLYGON
        match D with
        | [] => none
        | w :: D1 =>
            if w == 0 then some (some (.curvePolygon false false emptyCPShell []), D1, F)
            else
              match geosify_geomN fuel w D1 F H with
              | none => none
              | some ([], _, _) => none
              | some (r0 :: rs, D2, F2) => some (some (.curvePolygon z m r0 rs), D2, F2)
      else if type == 7 || type == 11 || type == 12 then
        -- GEOMETRYCOLLECTION, MULTICURVE, MULTISURFACE
        match D with
        | [] => none
        | w :: D1 =>
            if w == 0 then some (some (mkColl type false false []), D1, F)
            else
              match geosify_geomN fuel w D1 F H with
              | none => none
              | some (gs, D2, F2) => some (some (mkColl type z m gs), D2, F2)
      else if type == 2 then
        -- LINEARRING: the code returns nullptr ("should never happen")
        some (none, D, F)
      else
        none

/-- The collection loops of `geosify_geom`: `n` recursively decoded
children. A `nullptr` child (nested `LinearRing`) would be handed to
`GEOSGeom_createCollection_r`, which dereferences it: modelled as
failure. -/
def geosify_geomN : Nat → Nat → List Nat → List Nat → List CSA → Option (List Geom × List Nat × List Nat)
  | _, 0, D, F, _ => some ([], D, F)
  | fuel, n + 1, D, F, H =>
      match geosify_geom fuel D F H with
      | some (some g, D1, F1) =>
          match geosify_geomN fuel n D1 F1 H with
          | none => none
          | some (gs, D2, F2) => some (g :: gs, D2, F2)
      | _ => none

end

/-- `geosify_geoms_r` (lines 251-262): run the assembly pass over the
whole integer region, writing each returned handle — including a
`nullptr` — into the output slot (`D[o] = (uptr) geosify_geom(...)`).
The slot contents are collected in order. -/
def geosify_geoms : Nat → List Nat → List Nat → List CSA → Option (List (Option Geom))
  | 0, _, _, _ => none
  | fuel + 1, D, F, H =>
      if D.isEmpty then some []
      else
        match geosify_geom (fuel + 1) D F H with
        | none => none
        | some (g, D1, F1) =>
            match geosify_geoms fuel D1 F1 H with
            | none => none
            | some gs => some (g :: gs)

/- ********************************************
 * Host-side glue between the two directions
 * ******************************************** -/

/-- Modelled from the spec: one coordinate sequence of the host
transcription (see `transcribeGeom`). The host reads the encoder's
`[length, float-offset]` pair, dereferences the data pointer and
writes back the decode-direction `[ptsLength]` word plus the
`ptsLength × dimensionality` ordinates it will copy into the storage
allocated by the decode pre-pass (spec §4.4: "writes the allocated
handle back into the integer region" / "the host can later write
coordinates into it directly"). -/
def transcribeCurve (hasZ hasM : Bool) :
    List BW → Option (List Nat × List (List Nat) × List BW)
  | .w sz :: .p dat :: rest => some ([sz], [padTake (sz * dims hasZ hasM) dat], rest)
  | _ => none

/-- Modelled from the spec: `n` transcribed coordinate sequences. -/
def transcribeCurveN (hasZ hasM : Bool) :
    Nat → List BW → Option (List Nat × List (List Nat) × List BW)
  | 0, rest => some ([], [], rest)
  | n + 1, rest => do
      let (ws, fl, rest1) ← transcribeCurve hasZ hasM rest
      let (ws2, fl2, rest2) ← transcribeCurveN hasZ hasM n rest1
      return (ws ++ ws2, fl ++ fl2, rest2)

/-- Modelled from the spec: `n` transcribed polygons (ring count then
rings each), the MultiPolygon layout of spec §4.3. -/
def transcribePolysN (hasZ hasM : Bool) :
    Nat → List BW → Option (List Nat × List (List Nat) × List BW)
  | 0, rest => some ([], [], rest)
  | j + 1, .w nR :: rest => do
      let (ws, fl, rest1) ← transcribeCurveN hasZ hasM nR rest
      let (ws2, fl2, rest2) ← transcribePolysN hasZ hasM j rest1
      return (nR :: (ws ++ ws2), fl ++ fl2, rest2)
  | _ + 1, _ => none

mutual

/-- Modelled from the spec: the host-side glue that is not part of
`src/` (it lives in the JavaScript half of the repository). It reads
one geometry of the encoder's output buffer (layout of spec §4.3) and
writes the decode-direction input for the same geometry (layout of
spec §3/§4.2): the integer words the pre-pass will walk, the ordinate
blocks the host copies into each allocated coordinate sequence (in the
strict FIFO order of the handle region of spec §3), and the float
region for Point/MultiPoint coordinates. For an empty non-Point
geometry the decode layout carries an explicit zero count word after
the header (a GeoJSON empty coordinate array), an empty curve also
getting its zero-length sequence slot. Float payloads are transported
verbatim: both codec directions move `ptN` ordinates per point, so the
blocks coincide positionally. -/
def transcribeGeom : Nat → List BW → List Nat →
    Option (List Nat × List (List Nat) × List Nat × List BW × List Nat)
  | 0, _, _ => none
  | _ + 1, .p _ :: _, _ => none
  | _ + 1, [], _ => none
  | fuel + 1, .w header :: B, F =>
      let type := headerType header
      let z := headerZ header
      let m := headerM header
      if headerE header then
        if type == 0 then some ([header], [], [], B, F)
        else if type == 1 || type == 2 || type == 8 then some ([header, 0], [[]], [], B, F)
        else some ([header, 0], [], [], B, F)
      else
        if type == 0 then
          match takeF (ptN z m) F with
          | none => none
          | some (c, F1) => some ([header], [], c, B, F1)
        else if type == 1 || type == 2 || type == 8 then
          match transcribeCurve z m B with
          | none => none
          | some (ws, fl, B1) => some (header :: ws, fl, [], B1, F)
        else if type == 3 then
          match B with
          | .w nR :: B1 =>
              match transcribeCurveN z m nR B1 with
              | none => none
              | some (ws, fl, B2) => some (header :: nR :: ws, fl, [], B2, F)
          | _ => none
        else if type == 4 then
          match B with
          | .w n :: B1 =>
              match takeF (n * ptN z m) F with
              | none => none
              | some (c, F1) => some ([header, n], [], c, B1, F1)
          | _ => none
        else if type == 5 then
          match B with
          | .w n :: B1 =>
              match transcribeCurveN z m n B1 with
              | none => none
              | some (ws, fl, B2) => some (header :: n :: ws, fl, [], B2, F)
          | _ => none
        else if type == 6 then
          match B with
          | .w n :: B1 =>
              match transcribePolysN z m n B1 with
              | none => none
              | some (ws, fl, B2) => some (header :: n :: ws, fl, [], B2, F)
          | _ => none
        else if type == 7 || type == 9 || type == 10 || type == 11 || type == 12 then
          match B with
          | .w n :: B1 =>
              match transcribeGeomN fuel n B1 F with
              | none => none
              | some (ws, fl, fs, B2, F2) => some (header :: n :: ws, fl, fs, B2, F2)
          | _ => none
        else none

/-- Modelled from the spec: `n` transcribed child geometries. -/
def transcribeGeomN : Nat → Nat → List BW → List Nat →
    Option (List Nat × List (List Nat) × List Nat × List BW × List Nat)
  | _, 0, B, F => some ([], [], [], B, F)
  | fuel, n + 1, B, F => do
      let (ws, fl, fs, B1, F1) ← transcribeGeom fuel B F
      let (ws2, fl2, fs2, B2, F2) ← transcribeGeomN fuel n B1 F1
      return (ws ++ ws2, fl ++ fl2, fs ++ fs2, B2, F2)

end

/- ********************************************
 * Structural descriptions of the decode-side streams
 * ******************************************** -/

mutual

/-- The decode-direction integer words for `g` (output of the host
transcription, input of the decode pre-pass). -/
def decD : Geom → List Nat
  | .point z m c => [(Geom.point z m c).header]
  | .lineString z m cs => [(Geom.lineString z m cs).header, cs.size]
  | .linearRing z m cs => [(Geom.linearRing z m cs).header, cs.size]
  | .circularString z m cs => [(Geom.circularString z m cs).header, cs.size]
  | .polygon z m sh hs =>
      if sh.size == 0 then [(Geom.polygon z m sh hs).header, 0]
      else (Geom.polygon z m sh hs).header :: (hs.length + 1) :: sh.size :: hs.map CSeq.size
  | .multiPoint z m pts =>
      if pts.all List.isEmpty then [(Geom.multiPoint z m pts).header, 0]
      else [(Geom.multiPoint z m pts).header, pts.length]
  | .multiLineString z m ls =>
      if ls.all (fun cs => cs.size == 0) then [(Geom.multiLineString z m ls).header, 0]
      else (Geom.multiLineString z m ls).header :: ls.length :: ls.map CSeq.size
  | .multiPolygon z m ps =>
      if ps.all (fun p => p.1.size == 0) then [(Geom.multiPolygon z m ps).header, 0]
      else (Geom.multiPolygon z m ps).header :: ps.length ::
        catMap (fun p => (p.2.length + 1) :: p.1.size :: p.2.map CSeq.size) ps
  | .geometryCollection z m gs =>
      if Geom.allEmptyB gs then [(Geom.geometryCollection z m gs).header, 0]
      else (Geom.geometryCollection z m gs).header :: gs.length :: decDL gs
  | .multiCurve z m gs =>
      if Geom.allEmptyB gs then [(Geom.multiCurve z m gs).header, 0]
      else (Geom.multiCurve z m gs).header :: gs.length :: decDL gs
  | .multiSurface z m gs =>
      if Geom.allEmptyB gs then [(Geom.multiSurface z m gs).header, 0]
      else (Geom.multiSurface z m gs).header :: gs.length :: decDL gs
  | .compoundCurve z m segs =>
      if Geom.allEmptyB segs then [(Geom.compoundCurve z m segs).header, 0]
      else (Geom.compoundCurve z m segs).header :: segs.length :: decDL segs
  | .curvePolygon z m sh hs =>
      if Geom.isEmptyB sh then [(Geom.curvePolygon z m sh hs).header, 0]
      else (Geom.curvePolygon z m sh hs).header :: (hs.length + 1) :: (decD sh ++ decDL hs)

def decDL : List Geom → List Nat
  | [] => []
  | g :: gs => decD g ++ decDL gs

end

mutual

/-- The ordinate blocks the host copies into the decode pre-pass's
allocated coordinate sequences, in allocation (FIFO) order. -/
def fills : Geom → List (List Nat)
  | .point _ _ _ => []
  | .lineString z m cs | .linearRing z m cs | .circularString z m cs =>
      [padTake (cs.size * dims z m) cs.data]
  | .polygon z m sh hs =>
      if sh.size == 0 then []
      else (sh :: hs).map (fun cs => padTake (cs.size * dims z m) cs.data)
  | .multiPoint _ _ _ => []
  | .multiLineString z m ls =>
      if ls.all (fun cs => cs.size == 0) then []
      else ls.map (fun cs => padTake (cs.size * dims z m) cs.data)
  | .multiPolygon z m ps =>
      if ps.all (fun p => p.1.size == 0) then []
      else catMap (fun p => (p.1 :: p.2).map (fun cs => padTake (cs.size * dims z m) cs.data)) ps
  | .geometryCollection z m gs =>
      if Geom.allEmptyB gs then [] else fillsL gs
  | .multiCurve z m gs =>
      if Geom.allEmptyB gs then [] else fillsL gs
  | .multiSurface z m gs =>
      if Geom.allEmptyB gs then [] else fillsL gs
  | .compoundCurve z m segs =>
      if Geom.allEmptyB segs then [] else fillsL segs
  | .curvePolygon z m sh hs =>
      if Geom.isEmptyB sh then [] else fills sh ++ fillsL hs

def fillsL : List Geom → List (List Nat)
  | [] => []
  | g :: gs => fills g ++ fillsL gs

end

mutual

/-- The coordinate sequences the decode pre-pass allocates for `g`, in
order. A standalone `LinearRing` allocates none (the pre-pass `switch`
skips it). -/
def csas : Geom → List CSAlloc
  | .point _ _ _ => []
  | .lineString z m cs => [⟨cs.size, z, m⟩]
  | .linearRing _ _ _ => []
  | .circularString z m cs => [⟨cs.size, z, m⟩]
  | .polygon z m sh hs =>
      if sh.size == 0 then [] else (sh :: hs).map (fun cs => ⟨cs.size, z, m⟩)
  | .multiPoint _ _ _ => []
  | .multiLineString z m ls =>
      if ls.all (fun cs => cs.size == 0) then []
      else ls.map (fun cs => ⟨cs.size, z, m⟩)
  | .multiPolygon z m ps =>
      if ps.all (fun p => p.1.size == 0) then []
      else catMap (fun p => (p.1 :: p.2).map (fun cs => (⟨cs.size, z, m⟩ : CSAlloc))) ps
  | .geometryCollection z m gs =>
      if Geom.allEmptyB gs then [] else csasL gs
  | .multiCurve z m gs =>
      if Geom.allEmptyB gs then [] else csasL gs
  | .multiSurface z m gs =>
      if Geom.allEmptyB gs then [] else csasL gs
  | .compoundCurve z m segs =>
      if Geom.allEmptyB segs then [] else csasL segs
  | .curvePolygon z m sh hs =>
      if Geom.isEmptyB sh then [] else csas sh ++ csasL hs

def csasL : List Geom → List CSAlloc
  | [] => []
  | g :: gs => csas g ++ csasL gs

end

/-- The pre-pass emission for the polygons of a MultiPolygon, with the
running handle counter. -/
def preDpolys (k : Nat) : List (CSeq × List CSeq) → List Nat
  | [] => []
  | p :: ps =>
      (p.2.length + 1) ::
        (List.range' k (p.2.length + 1) ++ preDpolys (k + (p.2.length + 1)) ps)

mutual

/-- The integer words after the decode pre-pass rewrote `decD g` in
place, handles starting at `k` (input of the assembly pass). -/
def preD : Geom → Nat → List Nat
  | .point z m c, _ => [(Geom.point z m c).header]
  | .lineString z m cs, k => [(Geom.lineString z m cs).header, k]
  | .linearRing z m cs, _ => [(Geom.linearRing z m cs).header]
  | .circularString z m cs, k => [(Geom.circularString z m cs).header, k]
  | .polygon z m sh hs, k =>
      if sh.size == 0 then [(Geom.polygon z m sh hs).header, 0]
      else (Geom.polygon z m sh hs).header :: (hs.length + 1) ::
        List.range' k (hs.length + 1)
  | .multiPoint z m pts, _ =>
      if pts.all List.isEmpty then [(Geom.multiPoint z m pts).header, 0]
      else [(Geom.multiPoint z m pts).header, pts.length]
  | .multiLineString z m ls, k =>
      if ls.all (fun cs => cs.size == 0) then [(Geom.multiLineString z m ls).header, 0]
      else (Geom.multiLineString z m ls).header :: ls.length :: List.range' k ls.length
  | .multiPolygon z m ps, k =>
      if ps.all (fun p => p.1.size == 0) then [(Geom.multiPolygon z m ps).header, 0]
      else (Geom.multiPolygon z m ps).header :: ps.length :: preDpolys k ps
  | .geometryCollection z m gs, k =>
      if Geom.allEmptyB gs then [(Geom.geometryCollection z m gs).header, 0]
      else (Geom.geometryCollection z m gs).header :: gs.length :: preDL gs k
  | .multiCurve z m gs, k =>
      if Geom.allEmptyB gs then [(Geom.multiCurve z m gs).header, 0]
      else (Geom.multiCurve z m gs).header :: gs.length :: preDL gs k
  | .multiSurface z m gs, k =>
      if Geom.allEmptyB gs then [(Geom.multiSurface z m gs).header, 0]
      else (Geom.multiSurface z m gs).header :: gs.length :: preDL gs k
  | .compoundCurve z m segs, k =>
      if Geom.allEmptyB segs then [(Geom.compoundCurve z m segs).header, 0]
      else (Geom.compoundCurve z m segs).header :: segs.length :: preDL segs k
  | .curvePolygon z m sh hs, k =>
      if Geom.isEmptyB sh then [(Geom.curvePolygon z m sh hs).header, 0]
      else (Geom.curvePolygon z m sh hs).header :: (hs.length + 1) ::
        (preD sh k ++ preDL hs (k + (csas sh).length))

def preDL : List Geom → Nat → List Nat
  | [], _ => []
  | g :: gs, k => preD g k ++ preDL gs (k + (csas g).length)

end

/-- A pre-pass allocation together with the ordinates the host copied
into its storage. -/
def mkCSA (a : CSAlloc) (d : List Nat) : CSA := ⟨a.size, a.hasZ, a.hasM, d⟩

/-- The filled allocation list for `g`. -/
def heapOf (g : Geom) : List CSA := List.zipWith mkCSA (csas g) (fills g)

/-- The filled allocation list for a child list. -/
def heapOfL (gs : List Geom) : List CSA := List.zipWith mkCSA (csasL gs) (fillsL gs)

/-- Well-formed coordinate sequence: the storage holds exactly
`size × dimensionality` ordinates, as the kernel guarantees. -/
def CSeq.wf (hasZ hasM : Bool) (cs : CSeq) : Bool :=
  cs.data.length == cs.size * dims hasZ hasM

/-- The shell of an empty curve polygon in the canonical 2D form the
decoder reproduces (`emptyCPShell`). -/
def isCanonEmptyShell : Geom → Bool
  | .linearRing z m cs => !z && !m && (cs.size == 0) && cs.data.isEmpty
  | _ => false

mutual

/-- Supported geometries: the domain on which the encode/decode round
trip reproduces the input exactly. Besides kernel well-formedness
(every coordinate store has its declared length, a point carries `ptN`
ordinates), the conditions reflect how the decoder rebuilds empties:
every empty geometry that the writing pass collapses to a bare header
must be in the canonical 2D form the decoder produces
(`GEOSGeom_createEmpty*` ignores the header's dimension flags), and a
standalone `LinearRing` is unsupported (the decoder returns a null
handle for it). -/
def Supported : Geom → Bool
  | .point z m c => if c.isEmpty then !z && !m else c.length == ptN z m
  | .lineString z m cs => CSeq.wf z m cs
  | .linearRing _ _ _ => false
  | .circularString z m cs => CSeq.wf z m cs
  | .polygon z m sh hs =>
      (sh :: hs).all (CSeq.wf z m) && (!(sh.size == 0) || (!z && !m && hs.isEmpty))
  | .multiPoint z m pts =>
      if pts.all List.isEmpty then !z && !m && pts.isEmpty
      else pts.all (fun c => c.length == ptN z m)
  | .multiLineString z m ls =>
      ls.all (CSeq.wf z m) &&
        (!(ls.all fun cs => cs.size == 0) || (!z && !m && ls.isEmpty))
  | .multiPolygon z m ps =>
      ps.all (fun p => (p.1 :: p.2).all (CSeq.wf z m)) &&
        (!(ps.all fun p => p.1.size == 0) || (!z && !m && ps.isEmpty))
  | .geometryCollection z m gs =>
      SupportedL gs && (!(Geom.allEmptyB gs) || (!z && !m && gs.isEmpty))
  | .multiCurve z m gs =>
      SupportedL gs && (!(Geom.allEmptyB gs) || (!z && !m && gs.isEmpty))
  | .multiSurface z m gs =>
      SupportedL gs && (!(Geom.allEmptyB gs) || (!z && !m && gs.isEmpty))
  | .compoundCurve z m segs =>
      SupportedL segs && (!(Geom.allEmptyB segs) || (!z && !m && segs.isEmpty))
  | .curvePolygon z m sh hs =>
      if Geom.isEmptyB sh then
        !z && !m && hs.isEmpty && isCanonEmptyShell sh
      else Supported sh && SupportedL hs

def SupportedL : List Geom → Bool
  | [] => true
  | g :: gs => Supported g && SupportedL gs

end

/-- The full round trip for one geometry: run the writing pass
(`jsonify_inspectGeom`), transcribe the produced buffer to the decode
direction, run the decode pre-pass (`geosify_geomsCoords`), fill the
allocated sequences with the transcribed ordinate blocks, and run the
assembly pass (`geosify_geoms_r`). The result is the list of handles
written into the output slots. -/
def roundTrip (g : Geom) : Option (List (Option Geom)) :=
  let BF := jsonify_inspectGeom g
  match transcribeGeom (gsz g) BF.1 BF.2 with
  | none => none
  | some (D, fl, F2, _, _) =>
      match geosify_geomsCoords (gsz g + 1) D 0 with
      | none => none
      | some (D2, als) => geosify_geoms (gsz g + 1) D2 F2 (List.zipWith mkCSA als fl)

/- ********************************************
 * STRtree
 * ******************************************** -/

/-- The state threaded through the nearest-neighbor search callback
(`STRtreeNearestState`, lines 554-560). Kernel distances are exact
rationals; `minDistance` starts at `geos::DoubleInfinity`, modelled by
`⊤`. `matches` holds stored-geometry indices. -/
structure STRtreeNearestState where
  allMatches : Bool
  minDistance : WithTop ℚ
  matchesList : List Nat
  deriving DecidableEq

/-- `distanceCallback` (lines 562-586). The callback receives the
candidate's index, the status flag and the distance reported by
`GEOSDistance_r` (the status is never inspected — the code discards
it), and returns the updated state, the value written to `*distance`
(the distance fed back to the index's pruning comparator) and the
callback's return flag (always `1`). -/
def distanceCallback (s : STRtreeNearestState) (treeGeomIndex : Nat) (ok : Bool)
    (dist : ℚ) : STRtreeNearestState × ℚ × Bool :=
  let s1 :=
    if (dist : WithTop ℚ) < s.minDistance then
      { s with minDistance := (dist : WithTop ℚ), matchesList := [] }
    else s
  if (dist : WithTop ℚ) = s1.minDistance then
    let s2 := { s1 with matchesList := s1.matchesList ++ [treeGeomIndex] }
    (s2, (if s2.allMatches then dist + 1 / 1000000 else dist), true)
  else
    (s1, dist, true)

/-- The search engine (`GEOSSTRtree_nearest_generic_r`, out of scope)
presents a traversal sequence of candidates `(index, status, dist)`;
the callback folds over it. -/
def runNearest (s : STRtreeNearestState) : List (Nat × Bool × ℚ) → STRtreeNearestState
  | [] => s
  | c :: cs => runNearest (distanceCallback s c.1 c.2.1 c.2.2).1 cs

/-- `STRtree_nearest_r` (lines 588-598): single-match mode; returns
`(matchesLength, matches.front-or-0)`. -/
def STRtree_nearest_r (cands : List (Nat × Bool × ℚ)) : Nat × Nat :=
  let s := runNearest ⟨false, ⊤, []⟩ cands
  (s.matchesList.length, s.matchesList.headD 0)

/-- `STRtree_nearestAll_r` (lines 600-612): all-matches mode; returns
`(matchesLength, matches)`. -/
def STRtree_nearestAll_r (cands : List (Nat × Bool × ℚ)) : Nat × List Nat :=
  let s := runNearest ⟨true, ⊤, []⟩ cands
  (s.matchesList.length, s.matchesList)

/-- Minimum kernel distance over a candidate sequence. -/
def minOver : List (Nat × Bool × ℚ) → WithTop ℚ
  | [] => ⊤
  | c :: cs => min (c.2.2 : WithTop ℚ) (minOver cs)

/- ********************************************
 * Header-word lemmas
 * ******************************************** -/

theorem typeId_lt (g : Geom) : g.typeId < 16 := by
  cases g <;> simp [Geom.typeId]

theorem bits_decomp (t a b c : Nat) (ht : t < 16) (ha : a ≤ 1) (hb : b ≤ 1) (hc : c ≤ 1) :
    (t + 16 * a + 32 * b + 64 * c) % 16 = t ∧
    (t + 16 * a + 32 * b + 64 * c) / 16 % 2 = a ∧
    (t + 16 * a + 32 * b + 64 * c) / 32 % 2 = b ∧
    (t + 16 * a + 32 * b + 64 * c) / 64 % 2 = c := by
  omega

theorem header_eq (g : Geom) :
    g.header = g.typeId + 16 * (if g.isEmptyB then 1 else 0)
      + 32 * (if g.hasZb then 1 else 0) + 64 * (if g.hasMb then 1 else 0) := by
  unfold Geom.header
  cases g.isEmptyB <;> cases g.hasZb <;> cases g.hasMb <;> simp

theorem headerType_header (g : Geom) : headerType g.header = g.typeId := by
  rw [headerType, header_eq]
  exact (bits_decomp g.typeId _ _ _ (typeId_lt g)
    (by split <;> simp) (by split <;> simp) (by split <;> simp)).1

theorem headerE_header (g : Geom) : headerE g.header = g.isEmptyB := by
  rw [headerE, header_eq]
  rw [(bits_decomp g.typeId _ _ _ (typeId_lt g)
    (by split <;> simp) (by split <;> simp) (by split <;> simp)).2.1]
  cases g.isEmptyB <;> simp

theorem headerZ_header (g : Geom) : headerZ g.header = g.hasZb := by
  rw [headerZ, header_eq]
  rw [(bits_decomp g.typeId _ _ _ (typeId_lt g)
    (by split <;> simp) (by split <;> simp) (by split <;> simp)).2.2.1]
  cases g.hasZb <;> simp

theorem headerM_header (g : Geom) : headerM g.header = g.hasMb := by
  rw [headerM, header_eq]
  rw [(bits_decomp g.typeId _ _ _ (typeId_lt g)
    (by split <;> simp) (by split <;> simp) (by split <;> simp)).2.2.2]
  cases g.hasMb <;> simp

/- ********************************************
 * Length lemmas
 * ******************************************** -/

theorem padTake_length (n : Nat) (l : List Nat) : (padTake n l).length = n := by
  simp [padTake]
  omega

theorem padTake_of_length (n : Nat) (l : List Nat) (h : l.length = n) : padTake n l = l := by
  subst h
  simp [padTake]

theorem catMap_append (f : α → List β) (l1 l2 : List α) :
    catMap f (l1 ++ l2) = catMap f l1 ++ catMap f l2 := by
  induction l1 with
  | nil => simp [catMap]
  | cons x xs ih => simp [catMap, ih]

theorem catMap_inspectPoint_length (z m : Bool) (pts : List (List Nat)) :
    (catMap (jsonify_inspectPoint z m) pts).length = pts.length * ptN z m := by
  induction pts with
  | nil => simp [catMap]
  | cons p ps ih =>
      simp [catMap, jsonify_inspectPoint, padTake_length, ih]
      ring

theorem catMap_inspectCurve_length (ls : List CSeq) :
    (catMap jsonify_inspectCurve ls).length = ls.length * 2 := by
  induction ls with
  | nil => simp [catMap]
  | cons c cs ih =>
      simp [catMap, jsonify_inspectCurve, ih]
      ring

theorem inspectPolygon_length (sh : CSeq) (hs : List CSeq) :
    (jsonify_inspectPolygon sh hs).length = 3 + hs.length * 2 := by
  simp [jsonify_inspectPolygon, jsonify_inspectCurve, catMap_inspectCurve_length]
  ring

theorem catMap_inspectPolygon_length (ps : List (CSeq × List CSeq)) :
    (catMap (fun p => jsonify_inspectPolygon p.1 p.2) ps).length = jsonify_measurePolys ps := by
  induction ps with
  | nil => simp [catMap, jsonify_measurePolys]
  | cons p ps ih =>
      simp [catMap, jsonify_measurePolys, inspectPolygon_length, ih]

/- ********************************************
 * C1: the measuring pass versus the writing pass
 * ******************************************** -/

mutual

/-- Sufficient condition for the measuring pass to be exact: no
geometry dispatched through `jsonify_inspectGeom`'s recursion (the
tree root, collection and compound-curve children, curve-polygon
rings) is empty, except Points, which are always measured exactly. -/
def exactMeasure : Geom → Bool
  | .point _ _ _ => true
  | .lineString _ _ cs | .linearRing _ _ cs | .circularString _ _ cs => !(cs.size == 0)
  | .polygon _ _ sh _ => !(sh.size == 0)
  | .multiPoint _ _ pts => !(pts.all List.isEmpty)
  | .multiLineString _ _ ls => !(ls.all fun cs => cs.size == 0)
  | .multiPolygon _ _ ps => !(ps.all fun p => p.1.size == 0)
  | .geometryCollection _ _ gs | .multiCurve _ _ gs | .multiSurface _ _ gs =>
      !(Geom.allEmptyB gs) && exactMeasureL gs
  | .compoundCurve _ _ segs => !(Geom.allEmptyB segs) && exactMeasureL segs
  | .curvePolygon _ _ sh hs => !(Geom.isEmptyB sh) && (exactMeasure sh && exactMeasureL hs)

def exactMeasureL : List Geom → Bool
  | [] => true
  | g :: gs => exactMeasure g && exactMeasureL gs

end

mutual

theorem measure_bounds : ∀ g : Geom,
    (jsB g).length ≤ (jsonify_measureGeom g).1 ∧
    (jsF g).length ≤ (jsonify_measureGeom g).2 ∧
    (exactMeasure g = true →
      (jsB g).length = (jsonify_measureGeom g).1 ∧
      (jsF g).length = (jsonify_measureGeom g).2)
  | .point z m c => by
      by_cases h : c.isEmpty <;>
        simp [jsB, jsF, jsonify_inspectGeom, jsonify_measureGeom, h,
          jsonify_inspectPoint, padTake_length]
  | .lineString z m cs => by
      by_cases h : cs.size == 0 <;>
        simp [jsB, jsF, jsonify_inspectGeom, jsonify_measureGeom, h,
          exactMeasure, jsonify_inspectCurve]
  | .linearRing z m cs => by
      by_cases h : cs.size == 0 <;>
        simp [jsB, jsF, jsonify_inspectGeom, jsonify_measureGeom, h,
          exactMeasure, jsonify_inspectCurve]
  | .circularString z m cs => by
      by_cases h : cs.size == 0 <;>
        simp [jsB, jsF, jsonify_inspectGeom, jsonify_measureGeom, h,
          exactMeasure, jsonify_inspectCurve]
  | .polygon z m sh hs => by
      by_cases h : sh.size == 0 <;>
        simp [jsB, jsF, jsonify_inspectGeom, jsonify_measureGeom, h,
          exactMeasure, inspectPolygon_length] <;> omega
  | .multiPoint z m pts => by
      by_cases h : pts.all List.isEmpty <;>
        simp [jsB, jsF, jsonify_inspectGeom, jsonify_measureGeom, h,
          exactMeasure, catMap_inspectPoint_length]
  | .multiLineString z m ls => by
      by_cases h : ls.all fun cs => cs.size == 0 <;>
        simp [jsB, jsF, jsonify_inspectGeom, jsonify_measureGeom, h,
          exactMeasure, catMap_inspectCurve_length] <;> omega
  | .multiPolygon z m ps => by
      by_cases h : ps.all fun p => p.1.size == 0 <;>
        simp [jsB, jsF, jsonify_inspectGeom, jsonify_measureGeom, h,
          exactMeasure, catMap_inspectPolygon_length] <;> omega
  | .geometryCollection z m gs => by
      obtain ⟨l1, l2, l3⟩ := measure_boundsL gs
      by_cases h : Geom.allEmptyB gs
      · simp [jsB, jsF, jsonify_inspectGeom, jsonify_measureGeom, h, exactMeasure]
        omega
      · simp [jsB, jsF, jsonify_inspectGeom, jsonify_measureGeom, h, exactMeasure]
        refine ⟨by omega, by omega, fun hx => ?_⟩
        rcases l3 hx with ⟨e1, e2⟩
        constructor <;> omega
  | .multiCurve z m gs => by
      obtain ⟨l1, l2, l3⟩ := measure_boundsL gs
      by_cases h : Geom.allEmptyB gs
      · simp [jsB, jsF, jsonify_inspectGeom, jsonify_measureGeom, h, exactMeasure]
        omega
      · simp [jsB, jsF, jsonify_inspectGeom, jsonify_measureGeom, h, exactMeasure]
        refine ⟨by omega, by omega, fun hx => ?_⟩
        rcases l3 hx with ⟨e1, e2⟩
        constructor <;> omega
  | .multiSurface z m gs => by
      obtain ⟨l1, l2, l3⟩ := measure_boundsL gs
      by_cases h : Geom.allEmptyB gs
      · simp [jsB, jsF, jsonify_inspectGeom, jsonify_measureGeom, h, exactMeasure]
        omega
      · simp [jsB, jsF, jsonify_inspectGeom, jsonify_measureGeom, h, exactMeasure]
        refine ⟨by omega, by omega, fun hx => ?_⟩
        rcases l3 hx with ⟨e1, e2⟩
        constructor <;> omega
  | .compoundCurve z m segs => by
      obtain ⟨l1, l2, l3⟩ := measure_boundsL segs
      by_cases h : Geom.allEmptyB segs
      · simp [jsB, jsF, jsonify_inspectGeom, jsonify_measureGeom, h, exactMeasure]
        omega
      · simp [jsB, jsF, jsonify_inspectGeom, jsonify_measureGeom, h, exactMeasure]
        refine ⟨by omega, by omega, fun hx => ?_⟩
        rcases l3 hx with ⟨e1, e2⟩
        constructor <;> omega
  | .curvePolygon z m sh hs => by
      obtain ⟨g1, g2, g3⟩ := measure_bounds sh
      obtain ⟨l1, l2, l3⟩ := measure_boundsL hs
      simp only [jsB, jsF] at g1 g2 g3
      by_cases h : Geom.isEmptyB sh
      · simp [jsB, jsF, jsonify_inspectGeom, jsonify_measureGeom, h, exactMeasure]
        omega
      · simp [jsB, jsF, jsonify_inspectGeom, jsonify_measureGeom, h, exactMeasure]
        refine ⟨by omega, by omega, fun hx hy => ?_⟩
        rcases g3 hx with ⟨e1, e2⟩
        rcases l3 hy with ⟨e3, e4⟩
        constructor <;> omega

theorem measure_boundsL : ∀ gs : List Geom,
    (jsonify_inspectList gs).1.length ≤ (jsonify_measureList gs).1 ∧
    (jsonify_inspectList gs).2.length ≤ (jsonify_measureList gs).2 ∧
    (exactMeasureL gs = true →
      (jsonify_inspectList gs).1.length = (jsonify_measureList gs).1 ∧
      (jsonify_inspectList gs).2.length = (jsonify_measureList gs).2)
  | [] => by simp [jsonify_inspectList, jsonify_measureList, exactMeasureL]
  | g :: gs => by
      have h1 := measure_bounds g
      have h2 := measure_boundsL gs
      simp only [jsB, jsF] at h1
      simp [jsonify_inspectList, jsonify_measureList, exactMeasureL]
      constructor
      · omega
      constructor
      · omega
      intro hx hy
      rcases h1 with ⟨_, _, he⟩
      rcases h2 with ⟨_, _, hel⟩
      rcases he hx with ⟨e1, e2⟩
      rcases hel hy with ⟨e3, e4⟩
      omega

end

/- ********************************************
 * STRtree lemmas
 * ******************************************** -/

/-- The callback never inspects the status flag returned by
`GEOSDistance_r`. -/
theorem distanceCallback_ignores_status (s : STRtreeNearestState) (idx : Nat)
    (ok : Bool) (d : ℚ) : distanceCallback s idx ok d = distanceCallback s idx true d := rfl

/-- State update performed by one callback invocation, split by the
three possible relations of the candidate distance to the running
minimum. -/
theorem distanceCallback_state (s : STRtreeNearestState) (idx : Nat) (ok : Bool) (d : ℚ) :
    (distanceCallback s idx ok d).1 =
      if (d : WithTop ℚ) < s.minDistance then ⟨s.allMatches, (d : WithTop ℚ), [idx]⟩
      else if (d : WithTop ℚ) = s.minDistance then
        ⟨s.allMatches, s.minDistance, s.matchesList ++ [idx]⟩
      else s := by
  unfold distanceCallback
  by_cases h1 : (d : WithTop ℚ) < s.minDistance
  · simp [h1]
  · by_cases h2 : (d : WithTop ℚ) = s.minDistance
    · simp [h1, h2]
    · simp [h1, h2]

/-- Characterization of a full callback fold from an arbitrary state:
the mode is untouched, the final minimum is the minimum of the initial
one and every presented distance, and the final match list is the
surviving part of the initial one followed by exactly the presented
candidates whose distance equals the final minimum, in traversal
order. -/
theorem runNearest_spec : ∀ (cands : List (Nat × Bool × ℚ)) (a : Bool)
    (m : WithTop ℚ) (ms : List Nat),
    (runNearest ⟨a, m, ms⟩ cands).allMatches = a ∧
    (runNearest ⟨a, m, ms⟩ cands).minDistance = min m (minOver cands) ∧
    (runNearest ⟨a, m, ms⟩ cands).matchesList =
      (if minOver cands < m then [] else ms) ++
        (cands.filter fun c => decide ((c.2.2 : WithTop ℚ) = min m (minOver cands))).map
          (fun c => c.1)
  | [], a, m, ms => by
      simp [runNearest, minOver, min_eq_left (le_top : m ≤ ⊤), not_top_lt]
  | c :: cs, a, m, ms => by
      obtain ⟨idx, ok, d⟩ := c
      simp only [runNearest, distanceCallback_state, minOver, List.filter_cons,
        decide_eq_true_eq]
      rcases lt_trichotomy (d : WithTop ℚ) m with hlt | heq | hgt
      · -- strictly better: reset the match set and lower the minimum
        rw [if_pos hlt]
        obtain ⟨ih1, ih2, ih3⟩ := runNearest_spec cs a (d : WithTop ℚ) [idx]
        have hmin : min m (min (d : WithTop ℚ) (minOver cs))
            = min (d : WithTop ℚ) (minOver cs) := by
          rw [← min_assoc, min_eq_right (le_of_lt hlt)]
        simp only [hmin]
        refine ⟨ih1, ih2, ?_⟩
        rw [ih3]
        have houter : min (d : WithTop ℚ) (minOver cs) < m :=
          lt_of_le_of_lt (min_le_left _ _) hlt
        rcases lt_or_le (minOver cs) (d : WithTop ℚ) with hmo | hmo
        · have hne : ¬ ((d : WithTop ℚ) = min (d : WithTop ℚ) (minOver cs)) := by
            rw [min_eq_right (le_of_lt hmo)]
            exact ne_of_gt hmo
          simp only [if_pos houter, if_pos hmo, if_neg hne, List.nil_append]
        · have hyes : (d : WithTop ℚ) = min (d : WithTop ℚ) (minOver cs) :=
            (min_eq_left hmo).symm
          have hnm : ¬ (minOver cs < (d : WithTop ℚ)) := not_lt.mpr hmo
          simp only [if_pos houter, if_neg hnm, if_pos hyes, List.nil_append,
            List.map_cons, List.singleton_append]
      · -- tie with the running minimum: append
        have hs1 : ¬ ((d : WithTop ℚ) < m) := by
          rw [heq]
          exact lt_irrefl m
        rw [if_neg hs1, if_pos heq]
        subst heq
        obtain ⟨ih1, ih2, ih3⟩ := runNearest_spec cs a (d : WithTop ℚ) (ms ++ [idx])
        have hmin : min (d : WithTop ℚ) (min (d : WithTop ℚ) (minOver cs))
            = min (d : WithTop ℚ) (minOver cs) := by
          rw [← min_assoc, min_self]
        simp only [hmin]
        refine ⟨ih1, ih2, ?_⟩
        rw [ih3]
        rcases lt_or_le (minOver cs) (d : WithTop ℚ) with hmo | hmo
        · have houter : min (d : WithTop ℚ) (minOver cs) < (d : WithTop ℚ) :=
            lt_of_le_of_lt (min_le_right _ _) hmo
          have hne : ¬ ((d : WithTop ℚ) = min (d : WithTop ℚ) (minOver cs)) := by
            rw [min_eq_right (le_of_lt hmo)]
            exact ne_of_gt hmo
          simp only [if_pos houter, if_pos hmo, if_neg hne, List.nil_append]
        · have hyes : (d : WithTop ℚ) = min (d : WithTop ℚ) (minOver cs) :=
            (min_eq_left hmo).symm
          have hnm : ¬ (minOver cs < (d : WithTop ℚ)) := not_lt.mpr hmo
          have houter : ¬ (min (d : WithTop ℚ) (minOver cs) < (d : WithTop ℚ)) := by
            rw [← hyes]
            exact lt_irrefl _
          simp only [if_neg houter, if_neg hnm, if_pos hyes, List.map_cons]
          simp
      · -- strictly worse: discard
        rw [if_neg (not_lt.mpr (le_of_lt hgt)), if_neg (ne_of_gt hgt)]
        obtain ⟨ih1, ih2, ih3⟩ := runNearest_spec cs a m ms
        have hmin : min m (min (d : WithTop ℚ) (minOver cs)) = min m (minOver cs) := by
          rw [← min_assoc, min_eq_left (le_of_lt hgt)]
        simp only [hmin]
        refine ⟨ih1, ih2, ?_⟩
        rw [ih3]
        have hne : ¬ ((d : WithTop ℚ) = min m (minOver cs)) := by
          intro hh
          exact absurd (hh ▸ min_le_left m (minOver cs)) (not_le.mpr hgt)
        simp only [if_neg hne]
        rcases lt_or_le (minOver cs) m with hmo | hmo
        · have houter : min (d : WithTop ℚ) (minOver cs) < m :=
            lt_of_le_of_lt (min_le_right _ _) hmo
          simp only [if_pos houter, if_pos hmo]
        · have houter : ¬ (min (d : WithTop ℚ) (minOver cs) < m) := by
            rw [min_lt_iff]
            rintro (hx | hx)
            · exact absurd hx (not_lt.mpr (le_of_lt hgt))
            · exact absurd hx (not_lt.mpr hmo)
          simp only [if_neg houter, if_neg (not_lt.mpr hmo)]

/- ********************************************
 * Round-trip infrastructure
 * ******************************************** -/

theorem gsz_pos : ∀ g : Geom, 1 ≤ gsz g := by
  intro g
  cases g <;> simp [gsz] <;> omega

theorem gszL_mem {gs : List Geom} {g : Geom} (h : g ∈ gs) : gsz g ≤ gszL gs := by
  induction gs with
  | nil => cases h
  | cons x xs ih =>
      rcases List.mem_cons.mp h with h1 | h2
      · subst h1
        simp [gszL]
      · have := ih h2
        simp [gszL]
        omega

theorem decD_ne_nil (g : Geom) : decD g ≠ [] := by
  cases g <;> simp only [decD] <;> (try split) <;> simp

theorem preD_ne_nil (g : Geom) (k : Nat) : preD g k ≠ [] := by
  cases g <;> simp only [preD] <;> (try split) <;> simp

theorem takeF_append (n : Nat) (l r : List Nat) (h : l.length = n) :
    takeF n (l ++ r) = some (l, r) := by
  subst h
  simp [takeF, List.take_left, List.drop_left]

theorem csas_fills_len_polys (z m : Bool) (ps : List (CSeq × List CSeq)) :
    (catMap (fun p => (p.1 :: p.2).map (fun cs => (⟨cs.size, z, m⟩ : CSAlloc))) ps).length
      = (catMap (fun p =>
          (p.1 :: p.2).map (fun cs => padTake (cs.size * dims z m) cs.data)) ps).length := by
  induction ps with
  | nil => rfl
  | cons p ps ih =>
      simp only [catMap, List.length_append, List.length_map]
      rw [ih]

mutual

theorem csas_fills_len : ∀ g : Geom, Supported g = true →
    (csas g).length = (fills g).length
  | .point _ _ _, _ => rfl
  | .lineString _ _ _, _ => rfl
  | .linearRing _ _ _, h => by simp [Supported] at h
  | .circularString _ _ _, _ => rfl
  | .polygon z m sh hs, _ => by
      by_cases he : sh.size == 0 <;> simp [csas, fills, he]
  | .multiPoint _ _ _, _ => rfl
  | .multiLineString z m ls, _ => by
      by_cases he : ls.all fun cs => cs.size == 0 <;> simp [csas, fills, he]
  | .multiPolygon z m ps, _ => by
      by_cases he : ps.all fun p => p.1.size == 0 <;> simp [csas, fills, he]
      exact csas_fills_len_polys z m ps
  | .geometryCollection z m gs, h => by
      have hl : SupportedL gs = true := by
        simp [Supported] at h
        exact h.1
      by_cases he : Geom.allEmptyB gs <;> simp [csas, fills, he]
      exact csas_fills_lenL gs hl
  | .multiCurve z m gs, h => by
      have hl : SupportedL gs = true := by
        simp [Supported] at h
        exact h.1
      by_cases he : Geom.allEmptyB gs <;> simp [csas, fills, he]
      exact csas_fills_lenL gs hl
  | .multiSurface z m gs, h => by
      have hl : SupportedL gs = true := by
        simp [Supported] at h
        exact h.1
      by_cases he : Geom.allEmptyB gs <;> simp [csas, fills, he]
      exact csas_fills_lenL gs hl
  | .compoundCurve z m segs, h => by
      have hl : SupportedL segs = true := by
        simp [Supported] at h
        exact h.1
      by_cases he : Geom.allEmptyB segs <;> simp [csas, fills, he]
      exact csas_fills_lenL segs hl
  | .curvePolygon z m sh hs, h => by
      by_cases he : Geom.isEmptyB sh
      · simp [csas, fills, he]
      · have hp : Supported sh = true ∧ SupportedL hs = true := by
          simp [Supported, he] at h
          exact h
        simp [csas, fills, he]
        rw [csas_fills_len sh hp.1, csas_fills_lenL hs hp.2]

theorem csas_fills_lenL : ∀ gs : List Geom, SupportedL gs = true →
    (csasL gs).length = (fillsL gs).length
  | [], _ => rfl
  | g :: gs, h => by
      have h1 : Supported g = true ∧ SupportedL gs = true := by
        simp [SupportedL] at h
        exact h
      simp [csasL, fillsL]
      rw [csas_fills_len g h1.1, csas_fills_lenL gs h1.2]

end

/-- `H` contains `sub` starting at index `k`. -/
def heapAgrees (H : List CSA) (k : Nat) (sub : List CSA) : Prop :=
  ∀ i, i < sub.length → H[k + i]? = sub[i]?

theorem heapAgrees_left {H : List CSA} {k : Nat} {xs ys : List CSA}
    (h : heapAgrees H k (xs ++ ys)) : heapAgrees H k xs := by
  intro i hi
  have h2 := h i (by simp only [List.length_append]; omega)
  rw [h2]
  exact List.getElem?_append_left hi

theorem heapAgrees_right {H : List CSA} {k : Nat} {xs ys : List CSA}
    (h : heapAgrees H k (xs ++ ys)) : heapAgrees H (k + xs.length) ys := by
  intro i hi
  have hlt : xs.length + i < (xs ++ ys).length := by
    simp only [List.length_append]
    omega
  have h2 := h (xs.length + i) hlt
  rw [show k + xs.length + i = k + (xs.length + i) by omega, h2]
  rw [List.getElem?_append_right (by omega : xs.length ≤ xs.length + i)]
  congr 1
  omega

theorem heapAgrees_head {H : List CSA} {k : Nat} {x : CSA} {xs : List CSA}
    (h : heapAgrees H k (x :: xs)) : H[k]? = some x := by
  have := h 0 (by simp)
  simpa using this

theorem heapAgrees_tail {H : List CSA} {k : Nat} {x : CSA} {xs : List CSA}
    (h : heapAgrees H k (x :: xs)) : heapAgrees H (k + 1) xs := by
  have h2 : heapAgrees H k ([x] ++ xs) := by simpa using h
  simpa using heapAgrees_right h2

theorem heapOfL_cons (g : Geom) (gs : List Geom) (h : Supported g = true) :
    heapOfL (g :: gs) = heapOf g ++ heapOfL gs := by
  simp only [heapOfL, csasL, fillsL, heapOf]
  rw [List.zipWith_append _ _ _ _ _ (csas_fills_len g h)]

theorem padTake_zero (l : List Nat) : padTake 0 l = [] := by
  simp [padTake]

/-- Words of the writing pass for a child list. -/
def jsBL (gs : List Geom) : List BW := (jsonify_inspectList gs).1

/-- Float ordinates of the writing pass for a child list. -/
def jsFL (gs : List Geom) : List Nat := (jsonify_inspectList gs).2

theorem jsBL_cons (g : Geom) (gs : List Geom) : jsBL (g :: gs) = jsB g ++ jsBL gs := rfl

theorem jsFL_cons (g : Geom) (gs : List Geom) : jsFL (g :: gs) = jsF g ++ jsFL gs := rfl

theorem jsBL_nil : jsBL [] = [] := rfl

theorem jsFL_nil : jsFL [] = [] := rfl

theorem transcribeCurveN_sim (z m : Bool) : ∀ (ls : List CSeq) (r : List BW),
    transcribeCurveN z m ls.length (catMap jsonify_inspectCurve ls ++ r)
      = some (ls.map CSeq.size, ls.map (fun cs => padTake (cs.size * dims z m) cs.data), r)
  | [], r => by simp [transcribeCurveN, catMap]
  | c :: ls, r => by
      have ih := transcribeCurveN_sim z m ls r
      simp [transcribeCurveN, catMap, jsonify_inspectCurve, transcribeCurve, ih]

theorem transcribePolysN_sim (z m : Bool) : ∀ (ps : List (CSeq × List CSeq)) (r : List BW),
    transcribePolysN z m ps.length (catMap (fun p => jsonify_inspectPolygon p.1 p.2) ps ++ r)
      = some (catMap (fun p => (p.2.length + 1) :: p.1.size :: p.2.map CSeq.size) ps,
              catMap (fun p =>
                (p.1 :: p.2).map (fun cs => padTake (cs.size * dims z m) cs.data)) ps,
              r)
  | [], r => by simp [transcribePolysN, catMap]
  | p :: ps, r => by
      have ihc := transcribeCurveN_sim z m (p.1 :: p.2)
        (catMap (fun p => jsonify_inspectPolygon p.1 p.2) ps ++ r)
      have ih := transcribePolysN_sim z m ps r
      simp only [jsonify_inspectPolygon, catMap, List.append_assoc, List.length_cons,
        List.map_cons] at ihc ih ⊢
      simp [transcribePolysN, ihc, ih]

mutual

/-- The host transcription consumes exactly the writing pass's output
for one geometry and produces the decode-direction streams described
by `decD` and `fills`, transporting the float block verbatim. -/
theorem transcribeGeom_sim : ∀ g : Geom, ∀ fuel, gsz g ≤ fuel → ∀ (rB : List BW) (rF : List Nat),
    transcribeGeom fuel (jsB g ++ rB) (jsF g ++ rF) = some (decD g, fills g, jsF g, rB, rF)
  | .point z m c => by
      intro fuel hf rB rF
      obtain ⟨f, rfl⟩ : ∃ f, fuel = f + 1 := ⟨fuel - 1, by simp [gsz] at hf; omega⟩
      rw [transcribeGeom.eq_def]
      by_cases hc : c.isEmpty
      · simp [jsB, jsF, jsonify_inspectGeom, hc, headerE_header,
          headerType_header, Geom.isEmptyB, Geom.typeId, decD, fills]
      · have ht := takeF_append (ptN z m) (padTake (ptN z m) c) rF (padTake_length _ _)
        simp [jsB, jsF, jsonify_inspectGeom, hc, headerE_header,
          headerType_header, headerZ_header, headerM_header, Geom.isEmptyB, Geom.typeId,
          Geom.hasZb, Geom.hasMb, decD, fills, jsonify_inspectPoint, ht]
  | .lineString z m cs => by
      intro fuel hf rB rF
      obtain ⟨f, rfl⟩ : ∃ f, fuel = f + 1 := ⟨fuel - 1, by simp [gsz] at hf; omega⟩
      rw [transcribeGeom.eq_def]
      by_cases hc : cs.size == 0
      · have h0 : cs.size = 0 := by simpa using hc
        simp [jsB, jsF, jsonify_inspectGeom, hc, headerE_header,
          headerType_header, Geom.isEmptyB, Geom.typeId, decD, fills, h0, padTake_zero]
      · simp [jsB, jsF, jsonify_inspectGeom, hc, headerE_header,
          headerType_header, headerZ_header, headerM_header, Geom.isEmptyB, Geom.typeId,
          Geom.hasZb, Geom.hasMb, jsonify_inspectCurve, transcribeCurve, decD, fills]
  | .linearRing z m cs => by
      intro fuel hf rB rF
      obtain ⟨f, rfl⟩ : ∃ f, fuel = f + 1 := ⟨fuel - 1, by simp [gsz] at hf; omega⟩
      rw [transcribeGeom.eq_def]
      by_cases hc : cs.size == 0
      · have h0 : cs.size = 0 := by simpa using hc
        simp [jsB, jsF, jsonify_inspectGeom, hc, headerE_header,
          headerType_header, Geom.isEmptyB, Geom.typeId, decD, fills, h0, padTake_zero]
      · simp [jsB, jsF, jsonify_inspectGeom, hc, headerE_header,
          headerType_header, headerZ_header, headerM_header, Geom.isEmptyB, Geom.typeId,
          Geom.hasZb, Geom.hasMb, jsonify_inspectCurve, transcribeCurve, decD, fills]
  | .circularString z m cs => by
      intro fuel hf rB rF
      obtain ⟨f, rfl⟩ : ∃ f, fuel = f + 1 := ⟨fuel - 1, by simp [gsz] at hf; omega⟩
      rw [transcribeGeom.eq_def]
      by_cases hc : cs.size == 0
      · have h0 : cs.size = 0 := by simpa using hc
        simp [jsB, jsF, jsonify_inspectGeom, hc, headerE_header,
          headerType_header, Geom.isEmptyB, Geom.typeId, decD, fills, h0, padTake_zero]
      · simp [jsB, jsF, jsonify_inspectGeom, hc, headerE_header,
          headerType_header, headerZ_header, headerM_header, Geom.isEmptyB, Geom.typeId,
          Geom.hasZb, Geom.hasMb, jsonify_inspectCurve, transcribeCurve, decD, fills]
  | .polygon z m sh hs => by
      intro fuel hf rB rF
      obtain ⟨f, rfl⟩ : ∃ f, fuel = f + 1 := ⟨fuel - 1, by simp [gsz] at hf; omega⟩
      rw [transcribeGeom.eq_def]
      by_cases hc : sh.size == 0
      · simp [jsB, jsF, jsonify_inspectGeom, hc, headerE_header,
          headerType_header, Geom.isEmptyB, Geom.typeId, decD, fills]
      · have hsim := transcribeCurveN_sim z m (sh :: hs) rB
        simp [catMap] at hsim
        simp [jsB, jsF, jsonify_inspectGeom, hc, headerE_header,
          headerType_header, headerZ_header, headerM_header, Geom.isEmptyB, Geom.typeId,
          Geom.hasZb, Geom.hasMb, jsonify_inspectPolygon, List.append_assoc, hsim,
          decD, fills]
  | .multiPoint z m pts => by
      intro fuel hf rB rF
      obtain ⟨f, rfl⟩ : ∃ f, fuel = f + 1 := ⟨fuel - 1, by simp [gsz] at hf; omega⟩
      rw [transcribeGeom.eq_def]
      by_cases hc : pts.all List.isEmpty
      · simp [jsB, jsF, jsonify_inspectGeom, hc, headerE_header,
          headerType_header, Geom.isEmptyB, Geom.typeId, decD, fills]
      · have ht := takeF_append (pts.length * ptN z m) (catMap (jsonify_inspectPoint z m) pts)
          rF (catMap_inspectPoint_length z m pts)
        simp [jsB, jsF, jsonify_inspectGeom, hc, headerE_header,
          headerType_header, headerZ_header, headerM_header, Geom.isEmptyB, Geom.typeId,
          Geom.hasZb, Geom.hasMb, decD, fills, ht]
  | .multiLineString z m ls => by
      intro fuel hf rB rF
      obtain ⟨f, rfl⟩ : ∃ f, fuel = f + 1 := ⟨fuel - 1, by simp [gsz] at hf; omega⟩
      rw [transcribeGeom.eq_def]
      by_cases hc : ls.all fun cs => cs.size == 0
      · simp [jsB, jsF, jsonify_inspectGeom, hc, headerE_header,
          headerType_header, Geom.isEmptyB, Geom.typeId, decD, fills]
      · have hsim := transcribeCurveN_sim z m ls rB
        simp [jsB, jsF, jsonify_inspectGeom, hc, headerE_header,
          headerType_header, headerZ_header, headerM_header, Geom.isEmptyB, Geom.typeId,
          Geom.hasZb, Geom.hasMb, List.append_assoc, hsim, decD, fills]
  | .multiPolygon z m ps => by
      intro fuel hf rB rF
      obtain ⟨f, rfl⟩ : ∃ f, fuel = f + 1 := ⟨fuel - 1, by simp [gsz] at hf; omega⟩
      rw [transcribeGeom.eq_def]
      by_cases hc : ps.all fun p => p.1.size == 0
      · simp [jsB, jsF, jsonify_inspectGeom, hc, headerE_header,
          headerType_header, Geom.isEmptyB, Geom.typeId, decD, fills]
      · have hsim := transcribePolysN_sim z m ps rB
        simp [jsB, jsF, jsonify_inspectGeom, hc, headerE_header,
          headerType_header, headerZ_header, headerM_header, Geom.isEmptyB, Geom.typeId,
          Geom.hasZb, Geom.hasMb, List.append_assoc, hsim, decD, fills]
  | .geometryCollection z m gs => by
      intro fuel hf rB rF
      obtain ⟨f, rfl⟩ : ∃ f, fuel = f + 1 := ⟨fuel - 1, by simp [gsz] at hf; omega⟩
      rw [transcribeGeom.eq_def]
      by_cases hc : Geom.allEmptyB gs
      · simp [jsB, jsF, jsonify_inspectGeom, hc, headerE_header,
          headerType_header, Geom.isEmptyB, Geom.typeId, decD, fills]
      · have hsim := transcribeGeomN_sim gs f (by simp [gsz] at hf; omega) rB rF
        simp only [jsBL, jsFL] at hsim
        simp [jsB, jsF, jsonify_inspectGeom, hc, headerE_header,
          headerType_header, headerZ_header, headerM_header, Geom.isEmptyB, Geom.typeId,
          Geom.hasZb, Geom.hasMb, hsim, decD, fills]
  | .multiCurve z m gs => by
      intro fuel hf rB rF
      obtain ⟨f, rfl⟩ : ∃ f, fuel = f + 1 := ⟨fuel - 1, by simp [gsz] at hf; omega⟩
      rw [transcribeGeom.eq_def]
      by_cases hc : Geom.allEmptyB gs
      · simp [jsB, jsF, jsonify_inspectGeom, hc, headerE_header,
          headerType_header, Geom.isEmptyB, Geom.typeId, decD, fills]
      · have hsim := transcribeGeomN_sim gs f (by simp [gsz] at hf; omega) rB rF
        simp only [jsBL, jsFL] at hsim
        simp [jsB, jsF, jsonify_inspectGeom, hc, headerE_header,
          headerType_header, headerZ_header, headerM_header, Geom.isEmptyB, Geom.typeId,
          Geom.hasZb, Geom.hasMb, hsim, decD, fills]
  | .multiSurface z m gs => by
      intro fuel hf rB rF
      obtain ⟨f, rfl⟩ : ∃ f, fuel = f + 1 := ⟨fuel - 1, by simp [gsz] at hf; omega⟩
      rw [transcribeGeom.eq_def]
      by_cases hc : Geom.allEmptyB gs
      · simp [jsB, jsF, jsonify_inspectGeom, hc, headerE_header,
          headerType_header, Geom.isEmptyB, Geom.typeId, decD, fills]
      · have hsim := transcribeGeomN_sim gs f (by simp [gsz] at hf; omega) rB rF
        simp only [jsBL, jsFL] at hsim
        simp [jsB, jsF, jsonify_inspectGeom, hc, headerE_header,
          headerType_header, headerZ_header, headerM_header, Geom.isEmptyB, Geom.typeId,
          Geom.hasZb, Geom.hasMb, hsim, decD, fills]
  | .compoundCurve z m segs => by
      intro fuel hf rB rF
      obtain ⟨f, rfl⟩ : ∃ f, fuel = f + 1 := ⟨fuel - 1, by simp [gsz] at hf; omega⟩
      rw [transcribeGeom.eq_def]
      by_cases hc : Geom.allEmptyB segs
      · simp [jsB, jsF, jsonify_inspectGeom, hc, headerE_header,
          headerType_header, Geom.isEmptyB, Geom.typeId, decD, fills]
      · have hsim := transcribeGeomN_sim segs f (by simp [gsz] at hf; omega) rB rF
        simp only [jsBL, jsFL] at hsim
        simp [jsB, jsF, jsonify_inspectGeom, hc, headerE_header,
          headerType_header, headerZ_header, headerM_header, Geom.isEmptyB, Geom.typeId,
          Geom.hasZb, Geom.hasMb, hsim, decD, fills]
  | .curvePolygon z m sh hs => by
      intro fuel hf rB rF
      obtain ⟨f, rfl⟩ : ∃ f, fuel = f + 1 := ⟨fuel - 1, by simp [gsz] at hf; omega⟩
      rw [transcribeGeom.eq_def]
      by_cases hc : Geom.isEmptyB sh
      · simp [jsB, jsF, jsonify_inspectGeom, hc, headerE_header,
          headerType_header, Geom.isEmptyB, Geom.typeId, decD, fills]
      · have hsh := transcribeGeom_sim sh f (by simp [gsz] at hf; omega)
          (jsBL hs ++ rB) (jsFL hs ++ rF)
        have hhs := transcribeGeomN_sim hs f (by simp [gsz] at hf; have := gsz_pos sh; omega)
          rB rF
        have hstep : transcribeGeomN f (hs.length + 1)
            (jsB sh ++ (jsBL hs ++ rB)) (jsF sh ++ (jsFL hs ++ rF))
            = some (decD sh ++ decDL hs, fills sh ++ fillsL hs, jsF sh ++ jsFL hs, rB, rF) := by
          rw [transcribeGeomN.eq_def]
          simp [hsh, hhs]
        simp only [jsB, jsF, jsBL, jsFL] at hstep
        simp [jsB, jsF, jsonify_inspectGeom, hc,
          headerE_header, headerType_header, headerZ_header, headerM_header,
          Geom.isEmptyB, Geom.typeId, Geom.hasZb, Geom.hasMb,
          List.append_assoc, hstep, decD, fills]

/-- The host transcription over a child list. -/
theorem transcribeGeomN_sim : ∀ gs : List Geom, ∀ fuel, gszL gs ≤ fuel →
    ∀ (rB : List BW) (rF : List Nat),
    transcribeGeomN fuel gs.length (jsBL gs ++ rB) (jsFL gs ++ rF)
      = some (decDL gs, fillsL gs, jsFL gs, rB, rF)
  | [] => by
      intro fuel hf rB rF
      rw [transcribeGeomN.eq_def]
      simp [jsBL, jsFL, jsonify_inspectList, decDL, fillsL]
  | g :: gs => by
      intro fuel hf rB rF
      have h1 := transcribeGeom_sim g fuel
        (by simp [gszL] at hf; omega) (jsBL gs ++ rB) (jsFL gs ++ rF)
      have h2 := transcribeGeomN_sim gs fuel (by simp [gszL] at hf; omega) rB rF
      rw [jsBL_cons, jsFL_cons, List.append_assoc, List.append_assoc,
        List.length_cons, transcribeGeomN.eq_def]
      simp [h1, h2, decDL, fillsL]

end

theorem geosify_coordsN_sim (z m : Bool) : ∀ (sizes : List Nat) (k : Nat) (r : List Nat),
    geosify_coordsN z m k sizes.length (sizes ++ r)
      = some (List.range' k sizes.length, sizes.map (fun sz => (⟨sz, z, m⟩ : CSAlloc)), r,
              k + sizes.length)
  | [], k, r => by simp [geosify_coordsN]
  | sz :: sizes, k, r => by
      have ih := geosify_coordsN_sim z m sizes (k + 1) r
      simp [geosify_coordsN, geosify_coords, ih, List.range'_succ]
      omega

theorem geosify_ppolysN_sim (z m : Bool) : ∀ (ps : List (CSeq × List CSeq)) (k : Nat) (r : List Nat),
    geosify_ppolysN z m k ps.length
        (catMap (fun p => (p.2.length + 1) :: p.1.size :: p.2.map CSeq.size) ps ++ r)
      = some (preDpolys k ps,
              catMap (fun p => (p.1 :: p.2).map (fun cs => (⟨cs.size, z, m⟩ : CSAlloc))) ps,
              r,
              k + (catMap (fun p =>
                (p.1 :: p.2).map (fun cs => (⟨cs.size, z, m⟩ : CSAlloc))) ps).length)
  | [], k, r => by simp [geosify_ppolysN, catMap, preDpolys]
  | p :: ps, k, r => by
      have ihc := geosify_coordsN_sim z m ((p.1 :: p.2).map CSeq.size) k
        (catMap (fun p => (p.2.length + 1) :: p.1.size :: p.2.map CSeq.size) ps ++ r)
      have ih := geosify_ppolysN_sim z m ps (k + (p.2.length + 1)) r
      simp only [List.map_cons, List.length_cons, List.length_map, List.map_map,
        List.cons_append, List.append_assoc, Function.comp] at ihc
      simp only [catMap, preDpolys, List.append_assoc, List.length_cons]
      simp [geosify_ppolysN, ihc, ih, List.map_map, Function.comp]
      omega

theorem geosify_geomCoordsN_zero (fuel k : Nat) (rest : List Nat) :
    geosify_geomCoordsN fuel k 0 rest = some ([], [], rest, k) := by
  rw [geosify_geomCoordsN.eq_def]

mutual

/-- The decode pre-pass consumes exactly the transcribed integer words
of one supported geometry, emits the handle-rewritten words `preD`,
and allocates exactly the sequences `csas`, in FIFO order. -/
theorem geosify_geomCoords_sim : ∀ g : Geom, Supported g = true → ∀ fuel, gsz g ≤ fuel →
    ∀ (k : Nat) (r : List Nat),
    geosify_geomCoords fuel k (decD g ++ r)
      = some (preD g k, csas g, r, k + (csas g).length)
  | .point z m c => by
      intro hs fuel hf k r
      obtain ⟨f, rfl⟩ : ∃ f, fuel = f + 1 := ⟨fuel - 1, by simp [gsz] at hf; omega⟩
      rw [geosify_geomCoords.eq_def]
      simp [decD, preD, csas, headerType_header, headerZ_header, headerM_header,
        Geom.typeId, Geom.hasZb, Geom.hasMb]
  | .lineString z m cs => by
      intro hs fuel hf k r
      obtain ⟨f, rfl⟩ : ∃ f, fuel = f + 1 := ⟨fuel - 1, by simp [gsz] at hf; omega⟩
      rw [geosify_geomCoords.eq_def]
      simp [decD, preD, csas, headerType_header, headerZ_header, headerM_header,
        Geom.typeId, Geom.hasZb, Geom.hasMb, geosify_coords]
  | .linearRing z m cs => by
      intro hs
      simp [Supported] at hs
  | .circularString z m cs => by
      intro hs fuel hf k r
      obtain ⟨f, rfl⟩ : ∃ f, fuel = f + 1 := ⟨fuel - 1, by simp [gsz] at hf; omega⟩
      rw [geosify_geomCoords.eq_def]
      simp [decD, preD, csas, headerType_header, headerZ_header, headerM_header,
        Geom.typeId, Geom.hasZb, Geom.hasMb, geosify_coords]
  | .polygon z m sh hs => by
      intro hsup fuel hf k r
      obtain ⟨f, rfl⟩ : ∃ f, fuel = f + 1 := ⟨fuel - 1, by simp [gsz] at hf; omega⟩
      rw [geosify_geomCoords.eq_def]
      by_cases hc : sh.size == 0
      · simp [decD, preD, csas, hc, headerType_header, headerZ_header, headerM_header,
          Geom.typeId, Geom.hasZb, Geom.hasMb, geosify_coordsN]
      · have hsim := geosify_coordsN_sim z m ((sh :: hs).map CSeq.size) k r
        simp only [List.map_cons, List.length_cons, List.length_map, List.map_map,
          List.cons_append, List.append_assoc, Function.comp] at hsim
        simp [decD, preD, csas, hc, headerType_header, headerZ_header, headerM_header,
          Geom.typeId, Geom.hasZb, Geom.hasMb, hsim, List.map_map, Function.comp]
  | .multiPoint z m pts => by
      intro hsup fuel hf k r
      obtain ⟨f, rfl⟩ : ∃ f, fuel = f + 1 := ⟨fuel - 1, by simp [gsz] at hf; omega⟩
      rw [geosify_geomCoords.eq_def]
      by_cases hc : pts.all List.isEmpty <;>
        simp [decD, preD, csas, hc, headerType_header, Geom.typeId]
  | .multiLineString z m ls => by
      intro hsup fuel hf k r
      obtain ⟨f, rfl⟩ : ∃ f, fuel = f + 1 := ⟨fuel - 1, by simp [gsz] at hf; omega⟩
      rw [geosify_geomCoords.eq_def]
      by_cases hc : ls.all fun cs => cs.size == 0
      · simp [decD, preD, csas, hc, headerType_header, headerZ_header, headerM_header,
          Geom.typeId, Geom.hasZb, Geom.hasMb, geosify_coordsN]
      · have hsim := geosify_coordsN_sim z m (ls.map CSeq.size) k r
        simp only [List.length_map, List.map_map, List.cons_append, List.append_assoc,
          Function.comp] at hsim
        simp [decD, preD, csas, hc, headerType_header, headerZ_header, headerM_header,
          Geom.typeId, Geom.hasZb, Geom.hasMb, hsim, List.map_map, Function.comp]
  | .multiPolygon z m ps => by
      intro hsup fuel hf k r
      obtain ⟨f, rfl⟩ : ∃ f, fuel = f + 1 := ⟨fuel - 1, by simp [gsz] at hf; omega⟩
      rw [geosify_geomCoords.eq_def]
      by_cases hc : ps.all fun p => p.1.size == 0
      · simp [decD, preD, csas, hc, headerType_header, Geom.typeId, geosify_ppolysN]
      · have hsim := geosify_ppolysN_sim z m ps k r
        simp [decD, preD, csas, hc, headerType_header, headerZ_header, headerM_header,
          Geom.typeId, Geom.hasZb, Geom.hasMb, hsim]
  | .geometryCollection z m gs => by
      intro hsup fuel hf k r
      obtain ⟨f, rfl⟩ : ∃ f, fuel = f + 1 := ⟨fuel - 1, by simp [gsz] at hf; omega⟩
      rw [geosify_geomCoords.eq_def]
      by_cases hc : Geom.allEmptyB gs
      · simp [decD, preD, csas, hc, headerType_header, Geom.typeId,
          geosify_geomCoordsN_zero]
      · have hl : SupportedL gs = true := by
          simp [Supported] at hsup
          exact hsup.1
        have hsim := geosify_geomCoordsN_sim gs hl f (by simp [gsz] at hf; omega) k r
        simp [decD, preD, csas, hc, headerType_header, Geom.typeId, hsim]
  | .multiCurve z m gs => by
      intro hsup fuel hf k r
      obtain ⟨f, rfl⟩ : ∃ f, fuel = f + 1 := ⟨fuel - 1, by simp [gsz] at hf; omega⟩
      rw [geosify_geomCoords.eq_def]
      by_cases hc : Geom.allEmptyB gs
      · simp [decD, preD, csas, hc, headerType_header, Geom.typeId,
          geosify_geomCoordsN_zero]
      · have hl : SupportedL gs = true := by
          simp [Supported] at hsup
          exact hsup.1
        have hsim := geosify_geomCoordsN_sim gs hl f (by simp [gsz] at hf; omega) k r
        simp [decD, preD, csas, hc, headerType_header, Geom.typeId, hsim]
  | .multiSurface z m gs => by
      intro hsup fuel hf k r
      obtain ⟨f, rfl⟩ : ∃ f, fuel = f + 1 := ⟨fuel - 1, by simp [gsz] at hf; omega⟩
      rw [geosify_geomCoords.eq_def]
      by_cases hc : Geom.allEmptyB gs
      · simp [decD, preD, csas, hc, headerType_header, Geom.typeId,
          geosify_geomCoordsN_zero]
      · have hl : SupportedL gs = true := by
          simp [Supported] at hsup
          exact hsup.1
        have hsim := geosify_geomCoordsN_sim gs hl f (by simp [gsz] at hf; omega) k r
        simp [decD, preD, csas, hc, headerType_header, Geom.typeId, hsim]
  | .compoundCurve z m segs => by
      intro hsup fuel hf k r
      obtain ⟨f, rfl⟩ : ∃ f, fuel = f + 1 := ⟨fuel - 1, by simp [gsz] at hf; omega⟩
      rw [geosify_geomCoords.eq_def]
      by_cases hc : Geom.allEmptyB segs
      · simp [decD, preD, csas, hc, headerType_header, Geom.typeId,
          geosify_geomCoordsN_zero]
      · have hl : SupportedL segs = true := by
          simp [Supported] at hsup
          exact hsup.1
        have hsim := geosify_geomCoordsN_sim segs hl f (by simp [gsz] at hf; omega) k r
        simp [decD, preD, csas, hc, headerType_header, Geom.typeId, hsim]
  | .curvePolygon z m sh hs => by
      intro hsup fuel hf k r
      obtain ⟨f, rfl⟩ : ∃ f, fuel = f + 1 := ⟨fuel - 1, by simp [gsz] at hf; omega⟩
      rw [geosify_geomCoords.eq_def]
      by_cases hc : Geom.isEmptyB sh
      · simp [decD, preD, csas, hc, headerType_header, Geom.typeId,
          geosify_geomCoordsN_zero]
      · have hp : Supported sh = true ∧ SupportedL hs = true := by
          simp [Supported, hc] at hsup
          exact hsup
        have hsh := geosify_geomCoords_sim sh hp.1 f (by simp [gsz] at hf; omega) k
          (decDL hs ++ r)
        have hhs := geosify_geomCoordsN_sim hs hp.2 f
          (by simp [gsz] at hf; have := gsz_pos sh; omega) (k + (csas sh).length) r
        have hstep : geosify_geomCoordsN f k (hs.length + 1) (decD sh ++ (decDL hs ++ r))
            = some (preD sh k ++ preDL hs (k + (csas sh).length),
                    csas sh ++ csasL hs, r,
                    k + (csas sh).length + (csasL hs).length) := by
          rw [geosify_geomCoordsN.eq_def]
          simp [hsh, hhs]
        simp [decD, preD, csas, hc, headerType_header, Geom.typeId, List.append_assoc,
          hstep]
        omega

/-- The decode pre-pass over a child list. -/
theorem geosify_geomCoordsN_sim : ∀ gs : List Geom, SupportedL gs = true → ∀ fuel,
    gszL gs ≤ fuel → ∀ (k : Nat) (r : List Nat),
    geosify_geomCoordsN fuel k gs.length (decDL gs ++ r)
      = some (preDL gs k, csasL gs, r, k + (csasL gs).length)
  | [] => by
      intro hsup fuel hf k r
      rw [geosify_geomCoordsN.eq_def]
      simp [decDL, preDL, csasL]
  | g :: gs => by
      intro hsup fuel hf k r
      have hp : Supported g = true ∧ SupportedL gs = true := by
        simp [SupportedL] at hsup
        exact hsup
      have h1 := geosify_geomCoords_sim g hp.1 fuel (by simp [gszL] at hf; omega) k
        (decDL gs ++ r)
      have h2 := geosify_geomCoordsN_sim gs hp.2 fuel (by simp [gszL] at hf; omega)
        (k + (csas g).length) r
      rw [show (g :: gs).length = gs.length + 1 from rfl, geosify_geomCoordsN.eq_def]
      simp [decDL, preDL, csasL, List.append_assoc, h1, h2]
      omega

end

theorem isCanonEmptyShell_eq : ∀ sh : Geom, isCanonEmptyShell sh = true → sh = emptyCPShell := by
  intro sh h
  cases sh <;> simp [isCanonEmptyShell] at h
  case linearRing z m cs =>
    obtain ⟨sz, dat⟩ := cs
    simp at h
    simp_all [emptyCPShell]

theorem wf_data {z m : Bool} {cs : CSeq} (h : CSeq.wf z m cs = true) :
    padTake (cs.size * dims z m) cs.data = cs.data := by
  apply padTake_of_length
  simpa [CSeq.wf] using h

theorem zipWith_map_same (f : α → β) (g : α → γ) (h : β → γ → δ) (l : List α) :
    List.zipWith h (l.map f) (l.map g) = l.map (fun x => h (f x) (g x)) := by
  induction l with
  | nil => rfl
  | cons x xs ih => simp [ih]

theorem CSeq_map_eta (l : List CSeq) :
    l.map (fun cs => (⟨cs.size, cs.data⟩ : CSeq)) = l := by
  induction l with
  | nil => rfl
  | cons x xs ih => simp [ih]

theorem geosify_point_sim (z m : Bool) (pt : List Nat) (h : pt.length = ptN z m)
    (rF : List Nat) : geosify_point z m (pt ++ rF) = some (.point z m pt, rF) := by
  cases z <;> cases m <;>
    simp only [ptN, if_true, if_false] at h <;>
    simp [geosify_point, takeF_append _ pt rF (by simpa using h)]

theorem geosify_pointsN_sim (z m : Bool) : ∀ (pts : List (List Nat)),
    (∀ p ∈ pts, p.length = ptN z m) → ∀ rF : List Nat,
    geosify_pointsN z m pts.length (catMap (jsonify_inspectPoint z m) pts ++ rF)
      = some (pts, rF)
  | [], _, rF => by simp [geosify_pointsN, catMap]
  | p :: pts, hlen, rF => by
      have hp : p.length = ptN z m := hlen p (by simp)
      have h1 := geosify_point_sim z m p hp (catMap (jsonify_inspectPoint z m) pts ++ rF)
      have ih := geosify_pointsN_sim z m pts (fun q hq => hlen q (by simp [hq])) rF
      simp [geosify_pointsN, catMap, jsonify_inspectPoint, padTake_of_length _ _ hp,
        List.append_assoc, h1, ih]

theorem geosify_ringsN_sim (H : List CSA) : ∀ (css : List CSA) (k : Nat) (r : List Nat),
    heapAgrees H k css →
    geosify_ringsN H css.length (List.range' k css.length ++ r) = some (css, r)
  | [], k, r, _ => by simp [geosify_ringsN]
  | c :: css, k, r, hH => by
      have h0 := heapAgrees_head hH
      have ih := geosify_ringsN_sim H css (k + 1) r (heapAgrees_tail hH)
      simp [geosify_ringsN, List.range'_succ, h0, ih]

theorem geosify_polygon_sim (H : List CSA) (c0 : CSA) (css : List CSA) (k : Nat)
    (r : List Nat) (hH : heapAgrees H k (c0 :: css)) :
    geosify_polygon H ((css.length + 1) :: (List.range' k (css.length + 1) ++ r))
      = some ((⟨c0.size, c0.data⟩, css.map fun c => ⟨c.size, c.data⟩),
              (c0.hasZ, c0.hasM), r) := by
  have hr := geosify_ringsN_sim H (c0 :: css) k r hH
  simp only [List.length_cons] at hr
  simp [geosify_polygon, hr]

/-- The CSAs the pre-pass and host produce for the rings of one
(multi)polygon entry, with well-formedness collapsing the host copy to
the original storage. -/
theorem heap_entries_wf (z m : Bool) (l : List CSeq)
    (hwf : ∀ cs ∈ l, CSeq.wf z m cs = true) :
    List.zipWith mkCSA (l.map (fun cs => (⟨cs.size, z, m⟩ : CSAlloc)))
        (l.map (fun cs => padTake (cs.size * dims z m) cs.data))
      = l.map (fun cs => (⟨cs.size, z, m, cs.data⟩ : CSA)) := by
  rw [zipWith_map_same]
  exact List.map_congr_left (fun cs hcs => by simp [mkCSA, wf_data (hwf cs hcs)])

theorem geosify_polygonsN_sim (H : List CSA) (z m : Bool) :
    ∀ (ps : List (CSeq × List CSeq)) (k : Nat) (r : List Nat),
    (∀ p ∈ ps, ∀ cs ∈ p.1 :: p.2, CSeq.wf z m cs = true) →
    heapAgrees H k (catMap (fun p =>
      (p.1 :: p.2).map (fun cs => (⟨cs.size, z, m, cs.data⟩ : CSA))) ps) →
    geosify_polygonsN H ps.length (preDpolys k ps ++ r) = some (ps, r)
  | [], k, r, _, _ => by simp [geosify_polygonsN, preDpolys]
  | p :: ps, k, r, hwf, hH => by
      obtain ⟨p1, p2⟩ := p
      have hH2 : heapAgrees H k
          (((p1 :: p2).map fun cs => (⟨cs.size, z, m, cs.data⟩ : CSA)) ++
            catMap (fun p => (p.1 :: p.2).map fun cs => (⟨cs.size, z, m, cs.data⟩ : CSA)) ps) := by
        simpa [catMap] using hH
      have hHp := heapAgrees_left hH2
      have hHr : heapAgrees H (k + (p2.length + 1)) (catMap (fun p =>
          (p.1 :: p.2).map (fun cs => (⟨cs.size, z, m, cs.data⟩ : CSA))) ps) := by
        have h2 := heapAgrees_right hH2
        simpa using h2
      have hpoly := geosify_polygon_sim H ⟨p1.size, z, m, p1.data⟩
        (p2.map fun cs => (⟨cs.size, z, m, cs.data⟩ : CSA)) k
        (preDpolys (k + (p2.length + 1)) ps ++ r) (by simpa using hHp)
      have ih := geosify_polygonsN_sim H z m ps (k + (p2.length + 1)) r
        (fun q hq => hwf q (by simp [hq])) hHr
      simp only [List.length_map] at hpoly
      have heta : (⟨p1.size, p1.data⟩ : CSeq) = p1 := rfl
      simp [geosify_polygonsN, preDpolys, List.append_assoc, hpoly, ih,
        List.map_map, Function.comp_def, CSeq_map_eta, heta]

theorem zipWith_catMap (f : α → List β) (g : α → List γ) (h : β → γ → δ) :
    ∀ l : List α, (∀ x ∈ l, (f x).length = (g x).length) →
    List.zipWith h (catMap f l) (catMap g l) = catMap (fun x => List.zipWith h (f x) (g x)) l
  | [], _ => rfl
  | x :: xs, hl => by
      have ih := zipWith_catMap f g h xs (fun y hy => hl y (by simp [hy]))
      simp [catMap, List.zipWith_append _ _ _ _ _ (hl x (by simp)), ih]

theorem catMap_congr (f g : α → List β) :
    ∀ l : List α, (∀ x ∈ l, f x = g x) → catMap f l = catMap g l
  | [], _ => rfl
  | x :: xs, h => by
      have ih := catMap_congr f g xs (fun y hy => h y (by simp [hy]))
      simp [catMap, h x (by simp), ih]

theorem heapOf_len {g : Geom} (h : Supported g = true) :
    (heapOf g).length = (csas g).length := by
  simp [heapOf, csas_fills_len g h]

theorem geosify_geomN_zero (fuel : Nat) (D F : List Nat) (H : List CSA) :
    geosify_geomN fuel 0 D F H = some ([], D, F) := by
  rw [geosify_geomN.eq_def]

mutual

/-- The assembly pass consumes exactly the pre-pass output and float
block of one supported geometry, with the heap holding that geometry's
filled allocations at offset `k`, and rebuilds the geometry exactly. -/
theorem geosify_geom_sim : ∀ g : Geom, Supported g = true → ∀ fuel, gsz g ≤ fuel →
    ∀ (k : Nat) (rD rF : List Nat) (H : List CSA), heapAgrees H k (heapOf g) →
    geosify_geom fuel (preD g k ++ rD) (jsF g ++ rF) H = some (some g, rD, rF)
  | .point z m c => by
      intro hs fuel hf k rD rF H hH
      obtain ⟨f, rfl⟩ : ∃ f, fuel = f + 1 := ⟨fuel - 1, by simp [gsz] at hf; omega⟩
      rw [geosify_geom.eq_def]
      by_cases hc : c.isEmpty
      · have hflag : z = false ∧ m = false ∧ c = [] := by
          simp [Supported, hc] at hs
          exact ⟨hs.1, hs.2, by simpa using hc⟩
        obtain ⟨hz, hm, hcc⟩ := hflag
        subst hz
        subst hm
        subst hcc
        simp [preD, jsF, jsonify_inspectGeom, jsonify_inspectPoint, headerType_header,
          headerE_header, Geom.typeId, Geom.isEmptyB]
      · have hlen : c.length = ptN z m := by
          simp [Supported, hc] at hs
          exact hs
        have hp := geosify_point_sim z m c hlen rF
        simp [preD, jsF, jsonify_inspectGeom, hc, jsonify_inspectPoint,
          padTake_of_length _ _ hlen, headerType_header, headerE_header, headerZ_header,
          headerM_header, Geom.typeId, Geom.isEmptyB, Geom.hasZb, Geom.hasMb, hp]
  | .lineString z m cs => by
      intro hs fuel hf k rD rF H hH
      obtain ⟨f, rfl⟩ : ∃ f, fuel = f + 1 := ⟨fuel - 1, by simp [gsz] at hf; omega⟩
      rw [geosify_geom.eq_def]
      have hwf : CSeq.wf z m cs = true := by simpa [Supported] using hs
      have hH1 : heapAgrees H k [⟨cs.size, z, m, cs.data⟩] := by
        simpa [heapOf, csas, fills, mkCSA, wf_data hwf] using hH
      have hget := heapAgrees_head hH1
      simp [preD, jsF, jsonify_inspectGeom, headerType_header, Geom.typeId, hget]
      split <;> rfl
  | .linearRing z m cs => by
      intro hs
      simp [Supported] at hs
  | .circularString z m cs => by
      intro hs fuel hf k rD rF H hH
      obtain ⟨f, rfl⟩ : ∃ f, fuel = f + 1 := ⟨fuel - 1, by simp [gsz] at hf; omega⟩
      rw [geosify_geom.eq_def]
      have hwf : CSeq.wf z m cs = true := by simpa [Supported] using hs
      have hH1 : heapAgrees H k [⟨cs.size, z, m, cs.data⟩] := by
        simpa [heapOf, csas, fills, mkCSA, wf_data hwf] using hH
      have hget := heapAgrees_head hH1
      simp [preD, jsF, jsonify_inspectGeom, headerType_header, Geom.typeId, hget]
      split <;> rfl
  | .polygon z m sh hs => by
      intro hsup fuel hf k rD rF H hH
      obtain ⟨f, rfl⟩ : ∃ f, fuel = f + 1 := ⟨fuel - 1, by simp [gsz] at hf; omega⟩
      rw [geosify_geom.eq_def]
      by_cases hc : sh.size == 0
      · have hz : z = false := by simp [Supported, hc] at hsup; tauto
        have hm : m = false := by simp [Supported, hc] at hsup; tauto
        have hnil : hs = [] := by simp [Supported, hc] at hsup; tauto
        have hwfsh : CSeq.wf z m sh = true := by simp [Supported] at hsup; tauto
        have hsz : sh.size = 0 := by simpa using hc
        have hdat : sh.data = [] := by
          have hl2 : sh.data.length = sh.size * dims z m := by
            simpa [CSeq.wf] using hwfsh
          rw [hsz] at hl2
          simpa using hl2
        have hsh : sh = ⟨0, []⟩ := by
          obtain ⟨a, b⟩ := sh
          simp_all
        subst hz
        subst hm
        subst hnil
        subst hsh
        simp [preD, jsF, jsonify_inspectGeom, headerType_header, Geom.typeId,
          geosify_polygon]
      · have hwfs : CSeq.wf z m sh = true := by simp [Supported, hc] at hsup; tauto
        have hwfh : ∀ cs ∈ hs, CSeq.wf z m cs = true := by
          simp [Supported, hc] at hsup
          tauto
        have hwf : ∀ cs ∈ sh :: hs, CSeq.wf z m cs = true := by
          intro cs hmem
          rcases List.mem_cons.mp hmem with h1 | h2
          · subst h1
            exact hwfs
          · exact hwfh cs h2
        have hheap : heapOf (Geom.polygon z m sh hs)
            = (sh :: hs).map (fun cs => (⟨cs.size, z, m, cs.data⟩ : CSA)) := by
          simp only [heapOf, csas, fills, hc, if_neg]
          exact heap_entries_wf z m (sh :: hs) hwf
        rw [hheap] at hH
        have hpoly := geosify_polygon_sim H ⟨sh.size, z, m, sh.data⟩
          (hs.map fun cs => (⟨cs.size, z, m, cs.data⟩ : CSA)) k rD (by simpa using hH)
        simp only [List.length_map] at hpoly
        have heta : (⟨sh.size, sh.data⟩ : CSeq) = sh := rfl
        simp [preD, jsF, jsonify_inspectGeom, hc, headerType_header, Geom.typeId,
          hpoly, List.map_map, Function.comp_def, CSeq_map_eta, heta]
  | .multiPoint z m pts => by
      intro hsup fuel hf k rD rF H hH
      obtain ⟨f, rfl⟩ : ∃ f, fuel = f + 1 := ⟨fuel - 1, by simp [gsz] at hf; omega⟩
      rw [geosify_geom.eq_def]
      by_cases hc : pts.all List.isEmpty
      · have hz : z = false := by simp [Supported, hc] at hsup; tauto
        have hm : m = false := by simp [Supported, hc] at hsup; tauto
        have hnil : pts = [] := by simp [Supported, hc] at hsup; tauto
        subst hz
        subst hm
        subst hnil
        simp [preD, jsF, jsonify_inspectGeom, headerType_header, Geom.typeId,
          Geom.isEmptyB]
      · have hlen : ∀ p ∈ pts, p.length = ptN z m := by
          simp [Supported, hc] at hsup
          tauto
        have hne : pts.length ≠ 0 := by
          intro h0
          rw [List.eq_nil_of_length_eq_zero h0] at hc
          simp at hc
        have hp := geosify_pointsN_sim z m pts hlen rF
        simp [preD, jsF, jsonify_inspectGeom, hc, headerType_header, headerZ_header,
          headerM_header, Geom.typeId, Geom.isEmptyB, Geom.hasZb, Geom.hasMb, hne, hp]
  | .multiLineString z m ls => by
      intro hsup fuel hf k rD rF H hH
      obtain ⟨f, rfl⟩ : ∃ f, fuel = f + 1 := ⟨fuel - 1, by simp [gsz] at hf; omega⟩
      rw [geosify_geom.eq_def]
      by_cases hc : ls.all fun cs => cs.size == 0
      · have hz : z = false := by simp [Supported, hc] at hsup; tauto
        have hm : m = false := by simp [Supported, hc] at hsup; tauto
        have hnil : ls = [] := by simp [Supported, hc] at hsup; tauto
        subst hz
        subst hm
        subst hnil
        simp [preD, jsF, jsonify_inspectGeom, headerType_header, Geom.typeId]
      · have hwf : ∀ cs ∈ ls, CSeq.wf z m cs = true := by
          simp [Supported, hc] at hsup
          tauto
        have hne : ls.length ≠ 0 := by
          intro h0
          rw [List.eq_nil_of_length_eq_zero h0] at hc
          simp at hc
        have hheap : heapOf (Geom.multiLineString z m ls)
            = ls.map (fun cs => (⟨cs.size, z, m, cs.data⟩ : CSA)) := by
          simp only [heapOf, csas, fills, hc, if_neg]
          exact heap_entries_wf z m ls hwf
        rw [hheap] at hH
        have hr := geosify_ringsN_sim H (ls.map fun cs => (⟨cs.size, z, m, cs.data⟩ : CSA))
          k rD (by simpa using hH)
        simp only [List.length_map] at hr
        simp [preD, jsF, jsonify_inspectGeom, hc, headerType_header, headerZ_header,
          headerM_header, Geom.typeId, Geom.hasZb, Geom.hasMb, hne, hr,
          List.map_map, Function.comp_def, CSeq_map_eta]
  | .multiPolygon z m ps => by
      intro hsup fuel hf k rD rF H hH
      obtain ⟨f, rfl⟩ : ∃ f, fuel = f + 1 := ⟨fuel - 1, by simp [gsz] at hf; omega⟩
      rw [geosify_geom.eq_def]
      by_cases hc : ps.all fun p => p.1.size == 0
      · have hz : z = false := by simp [Supported, hc] at hsup; tauto
        have hm : m = false := by simp [Supported, hc] at hsup; tauto
        have hnil : ps = [] := by simp [Supported, hc] at hsup; tauto
        subst hz
        subst hm
        subst hnil
        simp [preD, jsF, jsonify_inspectGeom, headerType_header, Geom.typeId]
      · have hwf1 : ∀ p ∈ ps,
            CSeq.wf z m p.1 = true ∧ ∀ cs ∈ p.2, CSeq.wf z m cs = true := by
          simp [Supported, hc] at hsup
          intro p hp
          obtain ⟨a, b⟩ := p
          exact hsup a b hp
        have hwf : ∀ p ∈ ps, ∀ cs ∈ p.1 :: p.2, CSeq.wf z m cs = true := by
          intro p hp cs hcs
          rcases List.mem_cons.mp hcs with h1 | h2
          · subst h1
            exact (hwf1 p hp).1
          · exact (hwf1 p hp).2 cs h2
        have hne : ps.length ≠ 0 := by
          intro h0
          rw [List.eq_nil_of_length_eq_zero h0] at hc
          simp at hc
        have hheap : heapOf (Geom.multiPolygon z m ps)
            = catMap (fun p =>
                (p.1 :: p.2).map (fun cs => (⟨cs.size, z, m, cs.data⟩ : CSA))) ps := by
          simp only [heapOf, csas, fills, hc, if_neg, Bool.false_eq_true, if_false]
          rw [zipWith_catMap _ _ _ ps (fun p _ => by simp)]
          apply catMap_congr
          intro p hp
          exact heap_entries_wf z m (p.1 :: p.2) (hwf p hp)
        rw [hheap] at hH
        have hps := geosify_polygonsN_sim H z m ps k rD hwf hH
        simp [preD, jsF, jsonify_inspectGeom, hc, headerType_header, headerZ_header,
          headerM_header, Geom.typeId, Geom.hasZb, Geom.hasMb, hne, hps]
  | .geometryCollection z m gs => by
      intro hsup fuel hf k rD rF H hH
      obtain ⟨f, rfl⟩ : ∃ f, fuel = f + 1 := ⟨fuel - 1, by simp [gsz] at hf; omega⟩
      rw [geosify_geom.eq_def]
      by_cases hc : Geom.allEmptyB gs
      · have hz : z = false := by simp [Supported, hc] at hsup; tauto
        have hm : m = false := by simp [Supported, hc] at hsup; tauto
        have hnil : gs = [] := by simp [Supported, hc] at hsup; tauto
        subst hz
        subst hm
        subst hnil
        simp [preD, jsF, jsonify_inspectGeom, hc, headerType_header, headerE_header,
          headerZ_header, headerM_header, Geom.typeId, mkColl, geosify_geomN_zero]
      · have hl : SupportedL gs = true := by
          simp [Supported] at hsup
          tauto
        have hne : gs.length ≠ 0 := by
          intro h0
          rw [List.eq_nil_of_length_eq_zero h0] at hc
          simp [Geom.allEmptyB] at hc
        have hHL : heapAgrees H k (heapOfL gs) := by
          simpa [heapOf, heapOfL, csas, fills, hc] using hH
        have hgs := geosify_geomN_sim gs hl f (by simp [gsz] at hf; omega) k rD rF H hHL
        simp only [jsFL] at hgs
        simp [preD, jsF, jsonify_inspectGeom, hc, headerType_header, headerZ_header,
          headerM_header, Geom.typeId, Geom.hasZb, Geom.hasMb, hne, hgs, mkColl]
  | .multiCurve z m gs => by
      intro hsup fuel hf k rD rF H hH
      obtain ⟨f, rfl⟩ : ∃ f, fuel = f + 1 := ⟨fuel - 1, by simp [gsz] at hf; omega⟩
      rw [geosify_geom.eq_def]
      by_cases hc : Geom.allEmptyB gs
      · have hz : z = false := by simp [Supported, hc] at hsup; tauto
        have hm : m = false := by simp [Supported, hc] at hsup; tauto
        have hnil : gs = [] := by simp [Supported, hc] at hsup; tauto
        subst hz
        subst hm
        subst hnil
        simp [preD, jsF, jsonify_inspectGeom, hc, headerType_header, headerE_header,
          headerZ_header, headerM_header, Geom.typeId, mkColl, geosify_geomN_zero]
      · have hl : SupportedL gs = true := by
          simp [Supported] at hsup
          tauto
        have hne : gs.length ≠ 0 := by
          intro h0
          rw [List.eq_nil_of_length_eq_zero h0] at hc
          simp [Geom.allEmptyB] at hc
        have hHL : heapAgrees H k (heapOfL gs) := by
          simpa [heapOf, heapOfL, csas, fills, hc] using hH
        have hgs := geosify_geomN_sim gs hl f (by simp [gsz] at hf; omega) k rD rF H hHL
        simp only [jsFL] at hgs
        simp [preD, jsF, jsonify_inspectGeom, hc, headerType_header, headerZ_header,
          headerM_header, Geom.typeId, Geom.hasZb, Geom.hasMb, hne, hgs, mkColl]
  | .multiSurface z m gs => by
      intro hsup fuel hf k rD rF H hH
      obtain ⟨f, rfl⟩ : ∃ f, fuel = f + 1 := ⟨fuel - 1, by simp [gsz] at hf; omega⟩
      rw [geosify_geom.eq_def]
      by_cases hc : Geom.allEmptyB gs
      · have hz : z = false := by simp [Supported, hc] at hsup; tauto
        have hm : m = false := by simp [Supported, hc] at hsup; tauto
        have hnil : gs = [] := by simp [Supported, hc] at hsup; tauto
        subst hz
        subst hm
        subst hnil
        simp [preD, jsF, jsonify_inspectGeom, hc, headerType_header, headerE_header,
          headerZ_header, headerM_header, Geom.typeId, mkColl, geosify_geomN_zero]
      · have hl : SupportedL gs = true := by
          simp [Supported] at hsup
          tauto
        have hne : gs.length ≠ 0 := by
          intro h0
          rw [List.eq_nil_of_length_eq_zero h0] at hc
          simp [Geom.allEmptyB] at hc
        have hHL : heapAgrees H k (heapOfL gs) := by
          simpa [heapOf, heapOfL, csas, fills, hc] using hH
        have hgs := geosify_geomN_sim gs hl f (by simp [gsz] at hf; omega) k rD rF H hHL
        simp only [jsFL] at hgs
        simp [preD, jsF, jsonify_inspectGeom, hc, headerType_header, headerZ_header,
          headerM_header, Geom.typeId, Geom.hasZb, Geom.hasMb, hne, hgs, mkColl]
  | .compoundCurve z m segs => by
      intro hsup fuel hf k rD rF H hH
      obtain ⟨f, rfl⟩ : ∃ f, fuel = f + 1 := ⟨fuel - 1, by simp [gsz] at hf; omega⟩
      rw [geosify_geom.eq_def]
      by_cases hc : Geom.allEmptyB segs
      · have hz : z = false := by simp [Supported, hc] at hsup; tauto
        have hm : m = false := by simp [Supported, hc] at hsup; tauto
        have hnil : segs = [] := by simp [Supported, hc] at hsup; tauto
        subst hz
        subst hm
        subst hnil
        simp [preD, jsF, jsonify_inspectGeom, hc, headerType_header, headerE_header,
          headerZ_header, headerM_header, Geom.typeId, geosify_geomN_zero]
      · have hl : SupportedL segs = true := by
          simp [Supported] at hsup
          tauto
        have hne : segs.length ≠ 0 := by
          intro h0
          rw [List.eq_nil_of_length_eq_zero h0] at hc
          simp [Geom.allEmptyB] at hc
        have hHL : heapAgrees H k (heapOfL segs) := by
          simpa [heapOf, heapOfL, csas, fills, hc] using hH
        have hgs := geosify_geomN_sim segs hl f (by simp [gsz] at hf; omega) k rD rF H hHL
        simp only [jsFL] at hgs
        simp [preD, jsF, jsonify_inspectGeom, hc, headerType_header, headerZ_header,
          headerM_header, Geom.typeId, Geom.hasZb, Geom.hasMb, hne, hgs]
  | .curvePolygon z m sh hs => by
      intro hsup fuel hf k rD rF H hH
      obtain ⟨f, rfl⟩ : ∃ f, fuel = f + 1 := ⟨fuel - 1, by simp [gsz] at hf; omega⟩
      rw [geosify_geom.eq_def]
      by_cases hc : Geom.isEmptyB sh
      · have hz : z = false := by simp [Supported, hc] at hsup; tauto
        have hm : m = false := by simp [Supported, hc] at hsup; tauto
        have hnil : hs = [] := by simp [Supported, hc] at hsup; tauto
        have hshell : sh = emptyCPShell := by
          apply isCanonEmptyShell_eq
          simp [Supported, hc] at hsup
          tauto
        subst hz
        subst hm
        subst hnil
        subst hshell
        simp [preD, jsF, jsonify_inspectGeom, headerType_header, Geom.typeId,
          Geom.isEmptyB, emptyCPShell]
      · have hp : Supported sh = true ∧ SupportedL hs = true := by
          simp [Supported, hc] at hsup
          tauto
        have hHd : heapAgrees H k (heapOf sh ++ heapOfL hs) := by
          have : heapOf (Geom.curvePolygon z m sh hs) = heapOf sh ++ heapOfL hs := by
            simp only [heapOf, heapOfL, csas, fills, hc, if_neg, Bool.false_eq_true,
              if_false]
            rw [List.zipWith_append _ _ _ _ _ (csas_fills_len sh hp.1)]
          rwa [this] at hH
        have hsh := geosify_geom_sim sh hp.1 f (by simp [gsz] at hf; omega) k
          (preDL hs (k + (csas sh).length) ++ rD) (jsFL hs ++ rF) H (heapAgrees_left hHd)
        have hhs := geosify_geomN_sim hs hp.2 f
          (by simp [gsz] at hf; have := gsz_pos sh; omega) (k + (csas sh).length) rD rF H
          (by
            have h2 := heapAgrees_right hHd
            rwa [heapOf_len hp.1] at h2)
        have hstep : geosify_geomN f (hs.length + 1)
            (preD sh k ++ (preDL hs (k + (csas sh).length) ++ rD))
            (jsF sh ++ (jsFL hs ++ rF)) H
            = some (sh :: hs, rD, rF) := by
          rw [geosify_geomN.eq_def]
          simp [hsh, hhs]
        simp only [jsF, jsFL, List.append_assoc] at hstep
        simp [preD, jsF, jsonify_inspectGeom, hc, headerType_header, headerZ_header,
          headerM_header, Geom.typeId, Geom.hasZb, Geom.hasMb,
          List.append_assoc, hstep]

/-- The assembly pass over a child list. -/
theorem geosify_geomN_sim : ∀ gs : List Geom, SupportedL gs = true → ∀ fuel,
    gszL gs ≤ fuel → ∀ (k : Nat) (rD rF : List Nat) (H : List CSA),
    heapAgrees H k (heapOfL gs) →
    geosify_geomN fuel gs.length (preDL gs k ++ rD) (jsFL gs ++ rF) H
      = some (gs, rD, rF)
  | [] => by
      intro hsup fuel hf k rD rF H hH
      rw [geosify_geomN.eq_def]
      simp [preDL, jsFL, jsonify_inspectList]
  | g :: gs => by
      intro hsup fuel hf k rD rF H hH
      have hp : Supported g = true ∧ SupportedL gs = true := by
        simp [SupportedL] at hsup
        exact hsup
      have hHd : heapAgrees H k (heapOf g ++ heapOfL gs) := by
        rwa [heapOfL_cons g gs hp.1] at hH
      have h1 := geosify_geom_sim g hp.1 fuel (by simp [gszL] at hf; omega) k
        (preDL gs (k + (csas g).length) ++ rD) (jsFL gs ++ rF) H (heapAgrees_left hHd)
      have h2 := geosify_geomN_sim gs hp.2 fuel (by simp [gszL] at hf; omega)
        (k + (csas g).length) rD rF H
        (by
          have hr := heapAgrees_right hHd
          rwa [heapOf_len hp.1] at hr)
      rw [show (g :: gs).length = gs.length + 1 from rfl, geosify_geomN.eq_def]
      rw [show preDL (g :: gs) k = preD g k ++ preDL gs (k + (csas g).length) from rfl]
      rw [show jsFL (g :: gs) = jsF g ++ jsFL gs from rfl]
      simp [List.append_assoc, h1, h2]

end

/-- The minimum over a non-empty candidate sequence is attained. -/
theorem minOver_mem : ∀ cands : List (Nat × Bool × ℚ), cands ≠ [] →
    ∃ c ∈ cands, (c.2.2 : WithTop ℚ) = minOver cands
  | [], h => absurd rfl h
  | c :: cs, _ => by
      rcases List.eq_nil_or_concat cs with hnil | _
      · subst hnil
        exact ⟨c, by simp, by simp [minOver, min_eq_left (le_top : _ ≤ ⊤)]⟩
      · rcases Decidable.em (cs = []) with hnil | hne
        · subst hnil
          exact ⟨c, by simp, by simp [minOver, min_eq_left (le_top : _ ≤ ⊤)]⟩
        · obtain ⟨c2, hc2, heq⟩ := minOver_mem cs hne
          rcases le_total (c.2.2 : WithTop ℚ) (minOver cs) with hle | hle
          · exact ⟨c, by simp, by simp [minOver, min_eq_left hle]⟩
          · exact ⟨c2, by simp [hc2], by simp [minOver, min_eq_right hle, heq]⟩

/-- A heap trivially contains itself at offset `0`. -/
theorem heapAgrees_self (H : List CSA) : heapAgrees H 0 H := by
  intro i hi
  simp

/-- Composition of the three phases: a supported geometry survives the
full round trip, coming back as the unique handle written into the
single output slot. -/
theorem roundTrip_supported (g : Geom) (hs : Supported g = true) :
    roundTrip g = some [some g] := by
  have ht := transcribeGeom_sim g (gsz g) (le_refl _) [] []
  have hp := geosify_geomCoords_sim g hs (gsz g + 1) (by omega) 0 []
  have ha := geosify_geom_sim g hs (gsz g + 1) (by omega) 0 [] [] (heapOf g)
    (heapAgrees_self (heapOf g))
  simp only [List.append_nil] at ht hp ha
  have hne1 : (decD g).isEmpty = false := by
    cases hD : decD g with
    | nil => exact absurd hD (decD_ne_nil g)
    | cons a l => rfl
  have hne2 : (preD g 0).isEmpty = false := by
    cases hD : preD g 0 with
    | nil => exact absurd hD (preD_ne_nil g 0)
    | cons a l => rfl
  obtain ⟨f, hfeq⟩ : ∃ f, gsz g = f + 1 := ⟨gsz g - 1, by have := gsz_pos g; omega⟩
  have hdrv1 : geosify_geomsCoords (gsz g + 1) (decD g) 0
      = some (preD g 0, csas g) := by
    rw [geosify_geomsCoords]
    simp only [hne1, Bool.false_eq_true, if_false, hp]
    rw [hfeq]
    rw [geosify_geomsCoords]
    simp
  have hdrv2 : geosify_geoms (gsz g + 1) (preD g 0) (jsF g) (heapOf g)
      = some [some g] := by
    rw [geosify_geoms]
    simp only [hne2, Bool.false_eq_true, if_false, ha]
    rw [hfeq]
    rw [geosify_geoms]
    simp
  have hBF1 : (jsonify_inspectGeom g).1 = jsB g := rfl
  have hBF2 : (jsonify_inspectGeom g).2 = jsF g := rfl
  rw [roundTrip]
  simp only [hBF1, hBF2, ht, hdrv1]
  exact hdrv2

/- ********************************************
 * Helper facts for the claim theorems
 * ******************************************** -/

/-- The decoder rebuilds every empty Point header as a plain 2D empty
Point (`GEOSGeom_createEmptyPoint` takes no dimension flags), so the
header flags of an empty Point are dropped by the round trip. -/
theorem roundTrip_empty_point (z m : Bool) :
    roundTrip (Geom.point z m []) = some [some (Geom.point false false [])] := by
  have hg : gsz (Geom.point z m []) = 1 := by simp [gsz]
  have ht := transcribeGeom_sim (Geom.point z m []) 1 (by simp [gsz]) [] []
  simp only [List.append_nil] at ht
  have hD : decD (Geom.point z m []) = [(Geom.point z m []).header] := by simp [decD]
  have hfills : fills (Geom.point z m []) = [] := by simp [fills]
  have hjsF : jsF (Geom.point z m []) = [] := by simp [jsF, jsonify_inspectGeom]
  have hpre : geosify_geomCoords 2 0 [(Geom.point z m []).header]
      = some ([(Geom.point z m []).header], [], [], 0) := by
    rw [geosify_geomCoords.eq_def]
    simp [headerType_header, Geom.typeId]
  have hdrv1 : geosify_geomsCoords 2 [(Geom.point z m []).header] 0
      = some ([(Geom.point z m []).header], []) := by
    rw [geosify_geomsCoords]
    simp only [List.isEmpty_cons, Bool.false_eq_true, if_false, hpre]
    rw [geosify_geomsCoords]
    simp
  have hasm : geosify_geom 2 [(Geom.point z m []).header] [] []
      = some (some (Geom.point false false []), [], []) := by
    rw [geosify_geom.eq_def]
    simp [headerType_header, headerE_header, Geom.typeId, Geom.isEmptyB]
  have hdrv2 : geosify_geoms 2 [(Geom.point z m []).header] [] []
      = some [some (Geom.point false false [])] := by
    rw [geosify_geoms]
    simp only [List.isEmpty_cons, Bool.false_eq_true, if_false, hasm]
    rw [geosify_geoms]
    simp
  have hBF1 : (jsonify_inspectGeom (Geom.point z m [])).1 = jsB (Geom.point z m []) := rfl
  have hBF2 : (jsonify_inspectGeom (Geom.point z m [])).2 = jsF (Geom.point z m []) := rfl
  have h11 : (1 : Nat) + 1 = 2 := rfl
  rw [hD, hfills, hjsF] at ht
  rw [roundTrip]
  simp only [hBF1, hBF2, hjsF, hg, ht, h11, hdrv1, List.zipWith_nil_right,
    List.zipWith_nil_left, hdrv2]

/-- The assembly pass hands a `LinearRing` type tag (2) to no
constructor: the `switch` returns `nullptr` and the caller stores it
without any error check. -/
theorem geosify_geom_linearRing_tag (fuel w : Nat) (D F : List Nat) (H : List CSA)
    (hw : headerType w = 2) :
    geosify_geom (fuel + 1) (w :: D) F H = some (none, D, F) := by
  rw [geosify_geom.eq_def]
  simp [hw]

/- ********************************************
 * Claim theorems
 * ******************************************** -/

/-- C1: the measuring pass `jsonify_measureGeom` never under-counts
the integer or float words emitted by the writing pass
`jsonify_inspectGeom` (so a measured allocation cannot overrun), and
it reports exactly the writer cursor positions whenever no geometry
dispatched through the writer recursion is empty (Points excepted);
for empty non-Point geometries it over-counts, so the two passes are
not equal on every tree. -/
theorem C1_measuring_pass (g : Geom) :
    (jsB g).length ≤ (jsonify_measureGeom g).1 ∧
    (jsF g).length ≤ (jsonify_measureGeom g).2 ∧
    (exactMeasure g = true →
      (jsB g).length = (jsonify_measureGeom g).1 ∧
      (jsF g).length = (jsonify_measureGeom g).2) :=
  measure_bounds g

/-- C1 witness: a two-point LineString is measured exactly. -/
theorem C1_witness :
    exactMeasure (Geom.lineString false false ⟨2, [1, 2, 3, 4]⟩) = true ∧
    (jsB (Geom.lineString false false ⟨2, [1, 2, 3, 4]⟩)).length
      = (jsonify_measureGeom (Geom.lineString false false ⟨2, [1, 2, 3, 4]⟩)).1 ∧
    (jsF (Geom.lineString false false ⟨2, [1, 2, 3, 4]⟩)).length
      = (jsonify_measureGeom (Geom.lineString false false ⟨2, [1, 2, 3, 4]⟩)).2 :=
  ⟨by decide,
   ((C1_measuring_pass (Geom.lineString false false ⟨2, [1, 2, 3, 4]⟩)).2.2 (by decide)).1,
   ((C1_measuring_pass (Geom.lineString false false ⟨2, [1, 2, 3, 4]⟩)).2.2 (by decide)).2⟩

/-- C1 counterexample: an empty LineString is measured at 3 integer
words but the writer emits only the bare header word. -/
theorem C1_counterexample :
    (jsB (Geom.lineString false false ⟨0, []⟩)).length = 1 ∧
    (jsonify_measureGeom (Geom.lineString false false ⟨0, []⟩)).1 = 3 :=
  ⟨by decide, by decide⟩

/-- C2: every supported geometry — canonical empties are 2D and a
standalone LinearRing is excluded, see `Supported` — survives the
encode/decode round trip structurally and coordinate-equal; geometry
trees outside `Supported` (an empty variant carrying Z or M flags) do
not, see the counterexample. -/
theorem C2_round_trip (g : Geom) (hs : Supported g = true) :
    roundTrip g = some [some g] :=
  roundTrip_supported g hs

/-- C2 witness: a concrete one-ring Polygon round-trips intact. -/
theorem C2_witness :
    Supported (Geom.polygon false false ⟨4, [0, 0, 10, 0, 10, 10, 0, 0]⟩ []) = true ∧
    roundTrip (Geom.polygon false false ⟨4, [0, 0, 10, 0, 10, 10, 0, 0]⟩ [])
      = some [some (Geom.polygon false false ⟨4, [0, 0, 10, 0, 10, 10, 0, 0]⟩ [])] :=
  ⟨by decide, C2_round_trip _ (by decide)⟩

/-- C2 counterexample: an empty Point with the Z flag set comes back
as a plain 2D empty Point, so the round trip is not the identity on
every `{hasZ, hasM}` combination of every empty variant. -/
theorem C2_counterexample :
    roundTrip (Geom.point true false []) = some [some (Geom.point false false [])] ∧
    Geom.point false false [] ≠ Geom.point true false [] :=
  ⟨roundTrip_empty_point true false, by simp⟩

/-- C3: the distance reported back to the pruning comparator is the
true distance plus exactly `1e-6` precisely when the search is in
all-matches mode and the candidate distance equals the (updated)
running minimum; the running minimum itself is always the unperturbed
`min`, and a candidate at the running minimum is appended to the
match set. -/
theorem C3_epsilon_perturbation (s : STRtreeNearestState) (idx : Nat) (ok : Bool)
    (d : ℚ) :
    ((distanceCallback s idx ok d).2.1
      = if s.allMatches = true ∧
            (d : WithTop ℚ) = (distanceCallback s idx ok d).1.minDistance
        then d + 1 / 1000000 else d) ∧
    (distanceCallback s idx ok d).1.minDistance = min (d : WithTop ℚ) s.minDistance ∧
    ((d : WithTop ℚ) = (distanceCallback s idx ok d).1.minDistance →
      ((distanceCallback s idx ok d).1.matchesList.getLast? = some idx)) := by
  rcases lt_trichotomy (d : WithTop ℚ) s.minDistance with h | h | h
  · have hout : distanceCallback s idx ok d
        = (⟨s.allMatches, (d : WithTop ℚ), [idx]⟩,
           (if s.allMatches then d + 1 / 1000000 else d), true) := by
      unfold distanceCallback
      simp [h]
    rw [hout]
    refine ⟨?_, by simp [min_eq_left (le_of_lt h)], fun _ => rfl⟩
    by_cases ha : s.allMatches <;> simp [ha]
  · have hout : distanceCallback s idx ok d
        = (⟨s.allMatches, s.minDistance, s.matchesList ++ [idx]⟩,
           (if s.allMatches then d + 1 / 1000000 else d), true) := by
      unfold distanceCallback
      simp [h]
    rw [hout]
    refine ⟨?_, by rw [h, min_self], fun _ => by simp⟩
    by_cases ha : s.allMatches <;> simp [ha, h]
  · have hne : ¬((d : WithTop ℚ) = s.minDistance) := by
      intro hh
      rw [hh] at h
      exact lt_irrefl _ h
    have hout : distanceCallback s idx ok d = (s, d, true) := by
      unfold distanceCallback
      simp [not_lt_of_gt h, hne]
    rw [hout]
    exact ⟨by simp [hne], by simp [min_eq_right (le_of_lt h)], fun hc => absurd hc hne⟩

/-- C4 (corrected): a top-level LinearRing type tag does NOT abort the
decode — `geosify_geom` returns a null handle (`none`) as a success
value, and `geosify_geoms_r` silently stores that null in the output
slot, the driver succeeding with a null entry instead of failing. -/
theorem C4_top_level_linearRing (fuel w : Nat) (F : List Nat) (H : List CSA)
    (hw : headerType w = 2) :
    geosify_geom (fuel + 1) [w] F H = some (none, [], F) ∧
    geosify_geoms (fuel + 2) [w] F H = some [none] := by
  refine ⟨geosify_geom_linearRing_tag fuel w [] F H hw, ?_⟩
  rw [geosify_geoms]
  simp only [List.isEmpty_cons, Bool.false_eq_true, if_false,
    geosify_geom_linearRing_tag (fuel + 1) w [] F H hw]
  rw [geosify_geoms]
  simp

/-- C4 witness: header word 18 (type 2, isEmpty flag) decodes to a
silently stored null handle. -/
theorem C4_witness :
    headerType 18 = 2 ∧
    geosify_geom 1 [18] [] [] = some (none, [], []) ∧
    geosify_geoms 2 [18] [] [] = some [none] :=
  ⟨by decide,
   (C4_top_level_linearRing 0 18 [] [] (by decide)).1,
   (C4_top_level_linearRing 0 18 [] [] (by decide)).2⟩

/-- C4 counterexample: the assembly driver on a top-level LinearRing
header succeeds (with a null output slot) instead of failing. -/
theorem C4_counterexample :
    geosify_geoms 2 [18] [] [] = some [none] ∧
    geosify_geoms 2 [18] [] [] ≠ none := by
  have h2 : (2 : Nat) = 1 + 1 := rfl
  have h1 : geosify_geom (1 + 1) [18] [] [] = some (none, [], []) := by
    rw [geosify_geom.eq_def]
    simp [headerType]
  constructor
  · rw [h2, geosify_geoms]
    simp only [List.isEmpty_cons, Bool.false_eq_true, if_false, h1]
    rw [geosify_geoms]
    simp
  · rw [h2, geosify_geoms]
    simp only [List.isEmpty_cons, Bool.false_eq_true, if_false, h1]
    rw [geosify_geoms]
    simp

/-- C5 (corrected): the kernel status flag handed to the distance
callback is never inspected — the callback result is independent of
it — and the callback always returns `1`, so a kernel distance
failure is neither detected nor propagated and the query is never
aborted. -/
theorem C5_distance_status_ignored (s : STRtreeNearestState) (idx : Nat) (ok : Bool)
    (d : ℚ) :
    distanceCallback s idx ok d = distanceCallback s idx true d ∧
    (distanceCallback s idx ok d).2.2 = true := by
  refine ⟨rfl, ?_⟩
  simp only [distanceCallback]
  split_ifs <;> rfl

/-- C5 counterexample: a candidate whose kernel status reports failure
is processed normally and a full (not aborted, not partial) result is
returned. -/
theorem C5_counterexample :
    STRtree_nearestAll_r [(7, false, 5)] = (1, [7]) := by decide

/-- C6: the float region starts `(dLength + sLength + 3) / 2` 8-byte
words past the buffer base, which is exactly `(dLength + sLength +
headerWords) / 2` with `headerWords = 2` rounded UP — equivalently
`dLength + sLength + 2` 32-bit words plus one padding word when that
count is odd, keeping the float region 8-byte aligned — and the
region split used by the decoder takes the float region at exactly
this offset. -/
theorem C6_float_region_offset (dLength sLength : Nat) (buff : List Nat) :
    geosify_F_offset dLength sLength = (dLength + sLength + 2 + 1) / 2 ∧
    2 * geosify_F_offset dLength sLength
      = dLength + sLength + 2 + (dLength + sLength) % 2 ∧
    (geosify_regions buff).2
      = buff.drop (2 * geosify_F_offset (buff.headD 0) ((buff.drop 1).headD 0)) := by
  refine ⟨?_, ?_, rfl⟩
  · simp [geosify_F_offset]
  · simp only [geosify_F_offset]
    omega

/-- C7: the nearest-all fold starts from `+infinity`; one callback step
resets the match set on a strictly smaller distance, appends on a tie
with the running minimum and discards a larger candidate; the final
result is exactly the traversal-ordered list of stored indices whose
distance equals the global minimum. -/
theorem C7_nearest_all (cands : List (Nat × Bool × ℚ)) (s : STRtreeNearestState)
    (idx : Nat) (ok : Bool) (d : ℚ) :
    ((distanceCallback s idx ok d).1 =
      if (d : WithTop ℚ) < s.minDistance then ⟨s.allMatches, (d : WithTop ℚ), [idx]⟩
      else if (d : WithTop ℚ) = s.minDistance then
        ⟨s.allMatches, s.minDistance, s.matchesList ++ [idx]⟩
      else s) ∧
    (STRtree_nearestAll_r cands).2
      = (cands.filter fun c => decide ((c.2.2 : WithTop ℚ) = minOver cands)).map
          (fun c => c.1) ∧
    (STRtree_nearestAll_r cands).1
      = ((cands.filter fun c => decide ((c.2.2 : WithTop ℚ) = minOver cands)).map
          (fun c => c.1)).length := by
  have hmin : min (⊤ : WithTop ℚ) (minOver cands) = minOver cands := min_eq_right le_top
  obtain ⟨-, -, h3⟩ := runNearest_spec cands true ⊤ []
  refine ⟨distanceCallback_state s idx ok d, ?_, ?_⟩
  · simp only [STRtree_nearestAll_r]
    rw [h3]
    simp [hmin]
  · simp only [STRtree_nearestAll_r]
    rw [h3]
    simp [hmin]

/-- C8: on a non-empty candidate sequence the nearest-one query
returns the stored index of the FIRST traversal candidate whose
distance equals the global minimum (ties broken by traversal order),
its reported match count equals the number of tied candidates, and
every index it can return is at the minimum — never strictly
farther. -/
theorem C8_nearest_one (cands : List (Nat × Bool × ℚ)) (hne : cands ≠ []) :
    (cands.filter fun c => decide ((c.2.2 : WithTop ℚ) = minOver cands)) ≠ [] ∧
    (STRtree_nearest_r cands).1
      = (cands.filter fun c => decide ((c.2.2 : WithTop ℚ) = minOver cands)).length ∧
    (STRtree_nearest_r cands).2
      = ((cands.filter fun c => decide ((c.2.2 : WithTop ℚ) = minOver cands)).map
          (fun c => c.1)).headD 0 ∧
    ∀ c ∈ cands.filter fun c => decide ((c.2.2 : WithTop ℚ) = minOver cands),
      (c.2.2 : WithTop ℚ) = minOver cands := by
  obtain ⟨c0, hc0, heq⟩ := minOver_mem cands hne
  have hfne : (cands.filter fun c => decide ((c.2.2 : WithTop ℚ) = minOver cands)) ≠ [] := by
    intro hnil
    have hmem : c0 ∈ cands.filter fun c => decide ((c.2.2 : WithTop ℚ) = minOver cands) :=
      List.mem_filter.mpr ⟨hc0, by simp [heq]⟩
    rw [hnil] at hmem
    cases hmem
  have hmin : min (⊤ : WithTop ℚ) (minOver cands) = minOver cands := min_eq_right le_top
  obtain ⟨-, -, h3⟩ := runNearest_spec cands false ⊤ []
  refine ⟨hfne, ?_, ?_, ?_⟩
  · simp only [STRtree_nearest_r]
    rw [h3]
    simp [hmin]
  · simp only [STRtree_nearest_r]
    rw [h3]
    simp [hmin]
  · intro c hc
    simpa using (List.mem_filter.mp hc).2

/-- C8 witness: three candidates, two tied at distance 5 — the first
tied index (3) is returned with a match count of 2. -/
theorem C8_witness :
    ([(3, true, (5 : ℚ)), (9, true, 5), (4, true, 7)] : List (Nat × Bool × ℚ)) ≠ [] ∧
    (([(3, true, (5 : ℚ)), (9, true, 5), (4, true, 7)] : List (Nat × Bool × ℚ)).filter
        fun c => decide ((c.2.2 : WithTop ℚ)
          = minOver [(3, true, (5 : ℚ)), (9, true, 5), (4, true, 7)])) ≠ [] ∧
    (STRtree_nearest_r [(3, true, (5 : ℚ)), (9, true, 5), (4, true, 7)]).1
      = (([(3, true, (5 : ℚ)), (9, true, 5), (4, true, 7)] : List (Nat × Bool × ℚ)).filter
          fun c => decide ((c.2.2 : WithTop ℚ)
            = minOver [(3, true, (5 : ℚ)), (9, true, 5), (4, true, 7)])).length ∧
    (STRtree_nearest_r [(3, true, (5 : ℚ)), (9, true, 5), (4, true, 7)]).2
      = ((([(3, true, (5 : ℚ)), (9, true, 5), (4, true, 7)] : List (Nat × Bool × ℚ)).filter
          fun c => decide ((c.2.2 : WithTop ℚ)
            = minOver [(3, true, (5 : ℚ)), (9, true, 5), (4, true, 7)])).map
          (fun c => c.1)).headD 0 ∧
    ∀ c ∈ ([(3, true, (5 : ℚ)), (9, true, 5), (4, true, 7)] : List (Nat × Bool × ℚ)).filter
        fun c => decide ((c.2.2 : WithTop ℚ)
          = minOver [(3, true, (5 : ℚ)), (9, true, 5), (4, true, 7)]),
      (c.2.2 : WithTop ℚ) = minOver [(3, true, (5 : ℚ)), (9, true, 5), (4, true, 7)] :=
  ⟨by decide, (C8_nearest_one _ (by decide)).1, (C8_nearest_one _ (by decide)).2.1,
   (C8_nearest_one _ (by decide)).2.2.1, (C8_nearest_one _ (by decide)).2.2.2⟩

/-- C9: after `jsonify_geoms` on an 8-byte aligned input buffer (whose
header slot 0 already holds the buffer address) with an 8-byte
aligned `malloc` result, header slot 0 holds the chosen output buffer
address (the fresh buffer in the allocation branch, the input buffer
itself in the in-place branch) and slot 1 holds the absolute 8-byte
word offset of the chosen float region, in both branches. -/
theorem C9_encode_header_slots (geoms : List Geom) (base avail tmpAddr : Nat)
    (hbase : 8 ∣ base) (htmp : 8 ∣ tmpAddr) :
    ((jsonify_geoms geoms base base avail tmpAddr).usedTmp = true →
      (jsonify_geoms geoms base base avail tmpAddr).slot0 = tmpAddr ∧
      8 * (jsonify_geoms geoms base base avail tmpAddr).slot1
        = tmpAddr
          + 4 * ((jsonify_measureList geoms).1 + (jsonify_measureList geoms).1 % 2)) ∧
    ((jsonify_geoms geoms base base avail tmpAddr).usedTmp = false →
      (jsonify_geoms geoms base base avail tmpAddr).slot0 = base ∧
      8 * (jsonify_geoms geoms base base avail tmpAddr).slot1
        = base + 8 * ((2 + geoms.length + (jsonify_measureList geoms).1 + 1) / 2)) := by
  obtain ⟨u, rfl⟩ := hbase
  obtain ⟨t, rfl⟩ := htmp
  simp only [jsonify_geoms]
  by_cases hbr : (jsonify_measureList geoms).1 + (jsonify_measureList geoms).2 * 2
      > avail
  · simp only [if_pos hbr]
    refine ⟨fun _ => ⟨trivial, ?_⟩, fun hf => by simp at hf⟩
    omega
  · simp only [if_neg hbr]
    refine ⟨fun hf => by simp at hf, fun _ => ⟨trivial, ?_⟩⟩
    omega

/-- C9 witness: an empty geometry list in an aligned buffer with no
spare capacity exercises the theorem at a concrete input. -/
theorem C9_witness :
    (8 : Nat) ∣ 8 ∧ (8 : Nat) ∣ 16 ∧
    (((jsonify_geoms [] 8 8 0 16).usedTmp = true →
      (jsonify_geoms [] 8 8 0 16).slot0 = 16 ∧
      8 * (jsonify_geoms [] 8 8 0 16).slot1
        = 16 + 4 * ((jsonify_measureList []).1 + (jsonify_measureList []).1 % 2)) ∧
    ((jsonify_geoms [] 8 8 0 16).usedTmp = false →
      (jsonify_geoms [] 8 8 0 16).slot0 = 8 ∧
      8 * (jsonify_geoms [] 8 8 0 16).slot1
        = 8 + 8 * ((2 + ([] : List Geom).length + (jsonify_measureList []).1 + 1) / 2))) :=
  ⟨⟨1, rfl⟩, ⟨2, rfl⟩, C9_encode_header_slots [] 8 0 16 ⟨1, rfl⟩ ⟨2, rfl⟩⟩

/-- C10: a nearest-one search that completes with zero candidates
returns match count 0 together with index value 0, the same value
that denotes the first stored geometry, so the index is meaningful
only when the match count is nonzero. -/
theorem C10_empty_search :
    STRtree_nearest_r [] = (0, 0) ∧ STRtree_nearest_r [(0, true, 1)] = (1, 0) := by
  constructor <;> decide

end GeosJs
